import Mathlib

/-!
Verification of the balancebook core (pybalancebook) against its design
specification.

Shallow embedding conventions used throughout this development:

* Python integers are `Int` (amounts are integer minor currency units).
* Python `datetime.date` is order-isomorphic to its proleptic Gregorian
  ordinal (`date.toordinal`), and the only operations the embedded code
  performs on dates are comparisons and whole-day shifts
  (`timedelta(days=k)`).  We therefore model a date by its ordinal, as an
  `Int`; `d + k` models `d + timedelta(days=k)`.
* Python `sorted` / `list.sort` is a stable sort.  Any two stable sorts
  with the same (total, transitive) boolean comparison agree pointwise, so
  we embed it with `List.insertionSort`, which is stable.
* `itertools.groupby(xs, key)` groups maximal runs of consecutive elements
  with equal keys; `groupByKey` below implements exactly that.
* `bisect.bisect_right(a, x, key=...)` is embedded by its own binary
  search loop (`bisectGo`), written with explicit fuel `a.length`
  (the loop halves `hi - lo`, so that fuel always suffices).
* Fallible code returns `Except`/`Option`; source-position diagnostics
  carried by the Python errors are irrelevant to the claims and omitted.
* Posting/transaction records keep the source field names (camel-cased).
-/

namespace BB

/-- Lexicographic comparison of two key pairs, used for Python sorts with
tuple keys such as sorting by (account number, date). -/
def lexLE2 (a b : Int × Int) : Bool :=
  a.1 < b.1 || (a.1 == b.1 && a.2 ≤ b.2)

/-- Lexicographic comparison of two key triples. -/
def lexLE3 (a b : Int × Int × Int) : Bool :=
  a.1 < b.1 || (a.1 == b.1 && lexLE2 a.2 b.2)

/-- Stable sort by a pair-valued key, the embedding of Python
sorted(xs, key=lambda x: (k1(x), k2(x))). -/
def sortBy2 {α : Type} (f : α → Int × Int) (l : List α) : List α :=
  List.insertionSort (fun x y => lexLE2 (f x) (f y) = true) l

/-- Stable sort by a triple-valued key. -/
def sortBy3 {α : Type} (f : α → Int × Int × Int) (l : List α) : List α :=
  List.insertionSort (fun x y => lexLE3 (f x) (f y) = true) l

/-- Stable sort by a single integer key, ascending. -/
def sortBy1 {α : Type} (f : α → Int) (l : List α) : List α :=
  List.insertionSort (fun x y => (f x ≤ f y : Bool) = true) l

/-- Stable sort by a single integer key, descending: the embedding of
Python sort(reverse=True, key=...), which is also stable. -/
def sortBy1Desc {α : Type} (f : α → Int) (l : List α) : List α :=
  List.insertionSort (fun x y => (f y ≤ f x : Bool) = true) l

/-- Grouping of maximal runs of consecutive elements with equal keys,
the embedding of Python itertools.groupby (with the group key recorded). -/
def groupByKey {α : Type} (key : α → Int) : List α → List (Int × List α)
  | [] => []
  | a :: as =>
    match groupByKey key as with
    | [] => [(key a, [a])]
    | (k, g) :: rest =>
      if key a == k then (key a, a :: g) :: rest
      else (key a, [a]) :: (k, g) :: rest

/-- Running totals over date groups: from groups (d, postings amounts
already summed) build the cumulative timeline list, as in the
_init_txns_cache loops (total += sum; append (dt, total)). -/
def cumulGroups (tot : Int) : List (Int × Int) → List (Int × Int)
  | [] => []
  | (d, s) :: rest => (d, tot + s) :: cumulGroups (tot + s) rest

/-- Binary search loop of CPython bisect_right on a list of
(date, value) pairs keyed by the date component.  The fuel argument is
initialized to the list length, which bounds the number of iterations
because hi - lo at least halves each step. -/
def bisectGo (tl : List (Int × Int)) (dt : Int) : Nat → Nat → Nat → Nat
  | 0, lo, _ => lo
  | fuel + 1, lo, hi =>
    if lo < hi then
      let mid := (lo + hi) / 2
      if dt < (tl.getD mid (0, 0)).1 then bisectGo tl dt fuel lo mid
      else bisectGo tl dt fuel (mid + 1) hi
    else lo

/-- bisect_right(tl, dt, key=fst): insertion point to the right of all
entries with key at most dt (on a key-sorted list). -/
def bisectRight (tl : List (Int × Int)) (dt : Int) : Nat :=
  bisectGo tl dt tl.length 0 tl.length

/-- Specification-side description of the balance lookup: the last
cumulative value of the timeline at-or-before the date, and 0 when there
is no such entry (absent timeline, or date before the first entry). -/
def lastAtOrBefore (tl : List (Int × Int)) (dt : Int) : Int :=
  (((tl.filter (fun e => decide (e.1 ≤ dt))).map (fun e => e.2)).getLast?).getD 0

/-- Character-list version of matching a literal pattern at the start of
a string. -/
def charsStartWith : List Char → List Char → Bool
  | [], _ => true
  | _ :: _, [] => false
  | c :: cs, d :: ds => c == d && charsStartWith cs ds

/-- Python re.match(pattern, s) anchors only at the START of the string.
For the metacharacter-free (literal) patterns used in this development it
holds exactly when the pattern is an initial segment of s. -/
def reMatchLit (pat s : String) : Bool :=
  charsStartWith pat.data s.data

/-- Python re.fullmatch(pattern, s) for a literal pattern: the pattern
must match the whole string.  This is the specification-side notion of a
regex fully matching a string. -/
def reFullMatchLit (pat s : String) : Bool :=
  pat == s

/-- Python truthiness of an optional integer: None and 0 are falsy. -/
def truthyI : Option Int → Bool
  | none => false
  | some n => !(n == 0)

/-- Python truthiness of an optional string: None and the empty string
are falsy. -/
def truthyS : Option String → Bool
  | none => false
  | some s => !(s == "")

/-- Python truthiness of an optional date: date objects are always
truthy, so only None is falsy. -/
def truthyD : Option Int → Bool :=
  Option.isSome

end BB

namespace TxnV1

/-! Embedding of src/balancebook/transaction.py (the snapshot where a
transaction carries the single date shared by its postings; the loader
rejects rows of one transaction with differing dates). -/

/-- The account object a posting references; only the identifier and the
(unique) number play a role in transaction loading and balances. -/
structure AccountRef where
  identifier : String
  number : Int
deriving DecidableEq, Repr

/-- A posting of transaction.py: no own date field; the posting's date is
its parent transaction's date (see Posting.key, which uses
parent_txn.date).  The back-reference parent_txn is left implicit. -/
structure Posting where
  id : Nat
  account : AccountRef
  amount : Int
  stDate : Int
  stDesc : Option String
  comment : Option String
deriving DecidableEq, Repr

/-- A transaction: an id, one date, and its postings. -/
structure Txn where
  id : Int
  date : Int
  postings : List Posting
deriving DecidableEq, Repr

/-- The date of a posting inside a transaction: postings of this snapshot
carry no date of their own, their date is the parent transaction's. -/
def postingDate (t : Txn) (_p : Posting) : Int :=
  t.date

/-- Errors raised while loading or verifying transactions. -/
inductive LoadErr where
  | unknownAccount (ident : String)
  | txnDateMismatch (id : Int)
  | txnLessThanTwoPostings (id : Int)
  | txnNotBalanced (id : Int)
deriving DecidableEq, Repr

/-- One already-typed csv row of the transactions file:
(txn id, date, account identifier, amount, statement date, statement
description, comment). -/
structure Row where
  txnId : Int
  date : Int
  account : String
  amount : Int
  stDate : Option Int
  stDesc : Option String
  comment : Option String
deriving DecidableEq, Repr

/-- Lookup in the accounts dictionary keyed by identifier. -/
def accFind (accs : List (String × AccountRef)) (k : String) : Option AccountRef :=
  (accs.find? (fun e => e.1 == k)).map (fun e => e.2)

/-- Lookup in the insertion-ordered transaction dictionary keyed by
transaction id. -/
def txnFind (m : List (Int × Txn)) (k : Int) : Option Txn :=
  (m.find? (fun e => e.1 == k)).map (fun e => e.2)

/-- Replacement of the value stored under a key, keeping its position
(Python dict update semantics). -/
def txnUpdate (m : List (Int × Txn)) (k : Int) (t : Txn) : List (Int × Txn) :=
  m.map (fun e => if e.1 == k then (k, t) else e)

/-- Processing of one csv row of load_txns: default the statement date to
the posting date, resolve the account, and either start a new transaction
or append to the existing one after checking the dates agree. -/
def addRow (accs : List (String × AccountRef)) (m : List (Int × Txn)) (row : Row) :
    Except LoadErr (List (Int × Txn)) :=
  let stDt := row.stDate.getD row.date
  match accFind accs row.account with
  | none => .error (.unknownAccount row.account)
  | some a =>
    let p : Posting :=
      { id := 1, account := a, amount := row.amount, stDate := stDt,
        stDesc := row.stDesc, comment := row.comment }
    match txnFind m row.txnId with
    | none =>
      .ok (m ++ [(row.txnId, { id := row.txnId, date := row.date, postings := [p] })])
    | some t =>
      if t.date ≠ row.date then .error (.txnDateMismatch t.id)
      else
        .ok (txnUpdate m row.txnId
          { t with postings := t.postings ++ [{ p with id := t.postings.length + 1 }] })

/-- verify_txn: at least two postings, and the postings sum to zero. -/
def verifyTxn (t : Txn) : Except LoadErr Unit :=
  if t.postings.length < 2 then .error (.txnLessThanTwoPostings t.id)
  else if (t.postings.map (fun p => p.amount)).sum ≠ 0 then .error (.txnNotBalanced t.id)
  else .ok ()

/-- The verification loop over all loaded transactions. -/
def verifyAll : List Txn → Except LoadErr Unit
  | [] => .ok ()
  | t :: ts =>
    match verifyTxn t with
    | .error e => .error e
    | .ok _ => verifyAll ts

/-- load_txns: fold the rows into the insertion-ordered dictionary, then
verify every transaction. -/
def loadTxns (rows : List Row) (accs : List (String × AccountRef)) :
    Except LoadErr (List Txn) :=
  match rows.foldlM (addRow accs) [] with
  | .error e => .error e
  | .ok m =>
    let txns := m.map (fun e => e.2)
    match verifyAll txns with
    | .error e => .error e
    | .ok _ => .ok txns

/-- Sum of the amounts of the postings selected by an index list
(sum([postings[k].amount for k in xs])). -/
def sumIdx {α : Type} (amount : α → Int) (ps : List α) (xs : List Nat) : Int :=
  (xs.map (fun k => ((ps[k]?).map amount).getD 0)).sum

/-- The inner j-loop of subset_sum: extend every previously seen index
subset with the current index i, returning early (as .error) on the first
extension whose amounts sum to the target, and otherwise the list of all
extensions in order. -/
def tryExtend {α : Type} (amount : α → Int) (ps : List α) (target : Int) (i : Nat) :
    List (List Nat) → Except (List Nat) (List (List Nat))
  | [] => .ok []
  | xs :: rest =>
    let ys := xs ++ [i]
    if sumIdx amount ps ys == target then .error ys
    else
      match tryExtend amount ps target i rest with
      | .error w => .error w
      | .ok ws => .ok (ys :: ws)

/-- The outer i-loop of subset_sum over the remaining indices, carrying
the growing collection of index subsets already seen. -/
def subsetSumGo {α : Type} (amount : α → Int) (ps : List α) (target : Int) :
    List Nat → List (List Nat) → Option (List Nat)
  | [], _ => none
  | i :: rest, prev =>
    if ((ps[i]?).map amount).getD 0 == target then some [i]
    else
      match tryExtend amount ps target i prev with
      | .error w => some w
      | .ok exts => subsetSumGo amount ps target rest (prev ++ [i] :: exts)

/-- subset_sum of transaction.py, parametrized by the amount field
accessor (the function only reads postings[i].amount, so it is shared by
the journal layer).  Returns the selected postings, Python None becoming
Option.none; a zero target returns the empty selection at once. -/
def subsetSum {α : Type} (amount : α → Int) (ps : List α) (target : Int) :
    Option (List α) :=
  if target == 0 then some []
  else
    (subsetSumGo amount ps target (List.range ps.length) []).map
      (fun xs => xs.filterMap (fun k => ps[k]?))

end TxnV1

namespace Journal

/-! Embedding of src/balancebook/journal/journal.py and
src/balancebook/journal/autoimport.py (the snapshot where each posting
carries its own transaction date and a payee). -/

/-- A chart-of-accounts node: unique number, identifier, display name and
owned children.  Parent back-references are not needed by the embedded
journal operations. -/
inductive AccountTree where
  | mk : Int → String → String → List AccountTree → AccountTree

/-- The account number. -/
def AccountTree.number : AccountTree → Int
  | .mk n _ _ _ => n

/-- The account identifier. -/
def AccountTree.identifier : AccountTree → String
  | .mk _ i _ _ => i

/-- The account display name. -/
def AccountTree.name : AccountTree → String
  | .mk _ _ m _ => m

/-- The account children. -/
def AccountTree.children : AccountTree → List AccountTree
  | .mk _ _ _ c => c

mutual
/-- get_descendants: all children, grand-children, and so on, in preorder
(for each child: the child, then its descendants). -/
def AccountTree.getDescendants : AccountTree → List AccountTree
  | .mk _ _ _ cs => AccountTree.getDescendantsL cs

/-- The loop of get_descendants over a list of children. -/
def AccountTree.getDescendantsL : List AccountTree → List AccountTree
  | [] => []
  | c :: cs => (c :: c.getDescendants) ++ AccountTree.getDescendantsL cs
end

/-- get_account_and_descendants: the account itself followed by its
descendants. -/
def AccountTree.getAccountAndDescendants (a : AccountTree) : List AccountTree :=
  a :: a.getDescendants

instance : Inhabited AccountTree := ⟨.mk 0 "" "" []⟩

/-- Account.__eq__: equality is by account number alone. -/
def pyEqA (a b : AccountTree) : Bool :=
  a.number == b.number

/-- Account.__lt__: ordering is by account number alone. -/
def pyLtA (a b : AccountTree) : Bool :=
  a.number < b.number

/-- Account.__hash__ hashes self.number; we record the number itself,
since only its sole dependence on the number matters. -/
def pyHashA (a : AccountTree) : Int :=
  a.number

/-- Python membership test (account in list), which compares the elements
with Account.__eq__. -/
def pyMemA (a : AccountTree) (l : List AccountTree) : Bool :=
  l.any (fun x => pyEqA x a)

/-- Lookup in a Python dict keyed by Account objects: hashing and
equality both reduce to the account number. -/
def dictFindA {β : Type} (m : List (AccountTree × β)) (k : AccountTree) : Option β :=
  (m.find? (fun e => pyEqA e.1 k)).map (fun e => e.2)

/-- A journal posting: own transaction date, account, signed amount,
payee, statement date, statement description and comment.  The pid field
stands for Python object identity (the heap address); it is not a source
field and is used only to express the in-place statement-date updates of
the reconciliation loop. -/
structure JPosting where
  pid : Nat
  date : Int
  account : AccountTree
  amount : Int
  payee : Option String
  stDate : Int
  stDesc : Option String
  comment : Option String

instance : Inhabited JPosting :=
  ⟨{ pid := 0, date := 0, account := default, amount := 0, payee := none,
     stDate := 0, stDesc := none, comment := none }⟩

/-- A journal transaction: optional id (None before add_txns assigns one)
and its postings. -/
structure JTxn where
  id : Option Int
  postings : List JPosting

/-- A balance checkpoint: date, account, asserted statement balance. -/
structure JBalance where
  date : Int
  account : AccountTree
  stBalance : Int

/-- The flat list of the postings of all transactions. -/
def flatPostings (txns : List JTxn) : List JPosting :=
  txns.flatMap (fun t => t.postings)

/-- The _postings_by_account cache: postings sorted by (account number,
date) and grouped by account number (groupby on the sorted list). -/
def postingsByAccount (ps : List JPosting) : List (Int × List JPosting) :=
  BB.groupByKey (fun p => p.account.number)
    (BB.sortBy2 (fun p => (p.account.number, p.date)) ps)

/-- Per-date amounts of one account group: groupby on the date key with
the amounts of each group summed (the statement-date basis re-sorts the
group by statement date first, mirroring _init_txns_cache). -/
def dateGroupSums (useSt : Bool) (g : List JPosting) : List (Int × Int) :=
  if useSt then
    (BB.groupByKey (fun p => p.stDate) (BB.sortBy1 (fun p => p.stDate) g)).map
      (fun e => (e.1, (e.2.map (fun p => p.amount)).sum))
  else
    (BB.groupByKey (fun p => p.date) g).map
      (fun e => (e.1, (e.2.map (fun p => p.amount)).sum))

/-- The _account_balance (date basis) or _account_st_balance (statement
date basis) cache: per account number, the cumulative timeline. -/
def timelines (ps : List JPosting) (useSt : Bool) : List (Int × List (Int × Int)) :=
  (postingsByAccount ps).map (fun e => (e.1, BB.cumulGroups 0 (dateGroupSums useSt e.2)))

/-- Lookup of an account's timeline in the cache dictionary. -/
def lookupTL (tls : List (Int × List (Int × Int))) (n : Int) : Option (List (Int × Int)) :=
  (tls.find? (fun e => e.1 == n)).map (fun e => e.2)

/-- The timeline of an account number, the empty timeline when the
account has no postings (the cache has no entry). -/
def timelineOf (tls : List (Int × List (Int × Int))) (n : Int) : List (Int × Int) :=
  (lookupTL tls n).getD []

/-- Journal.account_balance over an already-built timeline cache: for the
account (and, when include_subaccounts, its descendants), look up the
timeline, bisect to the last entry at-or-before the date, and accumulate;
accounts with no timeline, or whose first entry is after the date,
contribute nothing. -/
def accountBalanceFrom (tls : List (Int × List (Int × Int))) (acc : AccountTree)
    (dt : Int) (includeSub : Bool) : Int :=
  let accs := if includeSub then acc.getAccountAndDescendants else [acc]
  accs.foldl (fun tot a =>
    match lookupTL tls a.number with
    | none => tot
    | some tl =>
      let idx := BB.bisectRight tl dt
      if idx = 0 then tot else tot + (tl.getD (idx - 1) (0, 0)).2) 0

/-- Journal.account_balance: build the cache for the requested basis from
the journal's transactions and query it. -/
def accountBalance (txns : List JTxn) (acc : AccountTree) (dt : Int)
    (useSt includeSub : Bool) : Int :=
  accountBalanceFrom (timelines (flatPostings txns) useSt) acc dt includeSub

/-- The journal state and the configuration consulted by the two
reconciliation operations. -/
structure JState where
  txns : List JTxn
  assertions : List JBalance
  asdAccounts : List AccountTree
  abAccounts : List (AccountTree × AccountTree)
  dayslimit : Int

/-- sort_data: postings of each transaction sorted by (date, account
number), transactions sorted by (first posting's date, its account
number, id), balance assertions sorted by (date, account number).  The
optional transaction id is read as 0 when absent (the source sorts loaded
transactions, whose ids are always set). -/
def sortData (j : JState) : JState :=
  let txns1 := j.txns.map (fun t =>
    { t with postings := BB.sortBy2 (fun p => (p.date, p.account.number)) t.postings })
  { j with
    txns := BB.sortBy3 (fun t =>
      ((t.postings.getD 0 default).date,
       (t.postings.getD 0 default).account.number, t.id.getD 0)) txns1,
    assertions := BB.sortBy2 (fun b => (b.date, b.account.number)) j.assertions }

/-- Journal.auto_statement_date_find_ps.  The timeline cache tls is the
_account_st_balance cache as built before the loop of
auto_statement_date; the postings argument is the live posting store
(the cache _postings_by_account holds the same live objects, so the
filter reads current statement dates while the balance uses the
precomputed cache).  Python returns [] when the assertion already holds,
None when no subset matches. -/
def findPs (tls : List (Int × List (Int × Int))) (postings : List JPosting)
    (b : JBalance) (dayslimit : Int) : Option (List JPosting) :=
  let txnAmount := accountBalanceFrom tls b.account b.date true
  if txnAmount == b.stBalance then some []
  else
    let groups := postingsByAccount postings
    let ps := (b.account.getAccountAndDescendants).flatMap
      (fun a => ((groups.find? (fun e => e.1 == a.number)).map (fun e => e.2)).getD [])
    let ps2 := ps.filter (fun x =>
      decide (x.date ≤ b.date) && decide (x.stDate ≤ b.date) &&
      decide (b.date - dayslimit ≤ x.date))
    let ps3 := BB.sortBy1Desc (fun x => x.date) ps2
    TxnV1.subsetSum (fun p => p.amount) ps3 (txnAmount - b.stBalance)

/-- The loop body of Journal.auto_statement_date: for an assertion on a
configured account, find the postings to shift and set each selected
posting's statement date to the assertion date plus one day, in place
(selection is by pid, the stand-in for Python object identity). -/
def asdStep (tls : List (Int × List (Int × Int))) (asdAccounts : List AccountTree)
    (dayslimit : Int) (st : List JPosting × List JTxn) (b : JBalance) :
    List JPosting × List JTxn :=
  if pyMemA b.account asdAccounts then
    match findPs tls (flatPostings st.2) b dayslimit with
    | some sel =>
      if sel.isEmpty then st
      else
        let isSel := fun (p : JPosting) => sel.any (fun q => q.pid == p.pid)
        let txns' := st.2.map (fun t =>
          { t with postings := t.postings.map (fun p =>
              if isSel p then { p with stDate := b.date + 1 } else p) })
        (st.1 ++ sel.map (fun p => { p with stDate := b.date + 1 }), txns')
    | none => st
  else st

/-- Journal.auto_statement_date: sort the data (so the assertions are
processed in sorted order), then fold the loop body over the assertions;
the statement-basis timeline cache is built once before the loop, while
the posting store evolves through it.  Returns the updated postings and
the new journal state. -/
def autoStatementDate (j : JState) : List JPosting × JState :=
  let j1 := sortData j
  let tls := timelines (flatPostings j1.txns) true
  let res := j1.assertions.foldl (asdStep tls j1.asdAccounts j1.dayslimit) ([], j1.txns)
  (res.1, { j1 with txns := res.2 })

/-- Journal.auto_balance_with_new_txn: when the assertion fails, a new
two-posting plug transaction dated at the checkpoint, for the signed
difference (asserted minus computed), against the configured offset
account; None when the assertion already holds. -/
def autoBalanceWithNewTxn (txns : List JTxn) (b : JBalance) (snd : AccountTree) :
    Option JTxn :=
  let txnAmount := accountBalance txns b.account b.date true true
  if txnAmount == b.stBalance then none
  else
    let diff := b.stBalance - txnAmount
    some
      { id := none,
        postings :=
          [{ pid := 0, date := b.date, account := b.account, amount := diff,
             payee := none, stDate := b.date, stDesc := none, comment := none },
           { pid := 0, date := b.date, account := snd, amount := -diff,
             payee := none, stDate := b.date, stDesc := none, comment := none }] }

/-- add_txns id assignment: the next id after the maximum existing one
(loaded transactions always carry ids; an absent id is read as 0). -/
def nextTxnId (txns : List JTxn) : Int :=
  (txns.map (fun t => t.id.getD 0)).foldl max 0 + 1

/-- The loop body of Journal.auto_balance: whenever the account is in
the auto-balance map, synthesize the plug transaction if needed and add
it with the next free id. -/
def abStep (abAccounts : List (AccountTree × AccountTree))
    (st : List JTxn × List JTxn) (b : JBalance) : List JTxn × List JTxn :=
  match dictFindA abAccounts b.account with
  | none => st
  | some snd =>
    match autoBalanceWithNewTxn st.2 b snd with
    | none => st
    | some t =>
      let t' := { t with id := some (nextTxnId st.2) }
      (st.1 ++ [t'], st.2 ++ [t'])

/-- Journal.auto_balance: over the assertions sorted by (date, account
number), fold the loop body (add_txns rebuilds the caches, so each later
balance is computed from the grown transaction list). -/
def autoBalance (j : JState) : List JTxn × JState :=
  let bals := BB.sortBy2 (fun b => (b.date, b.account.number)) j.assertions
  let res := bals.foldl (abStep j.abAccounts) ([], j.txns)
  (res.1, { j with txns := res.2 })

/-- Posting.dedup_key: (date, account number, amount, statement
description). -/
def dedupKey (p : JPosting) : Int × Int × Int × Option String :=
  (p.date, p.account.number, p.amount, p.stDesc)

/-- Counting increment in the insertion-ordered dedup-key dictionary. -/
def bumpKey (m : List ((Int × Int × Int × Option String) × Nat))
    (k : Int × Int × Int × Option String) :
    List ((Int × Int × Int × Option String) × Nat) :=
  match m.find? (fun e => e.1 == k) with
  | none => m ++ [(k, 1)]
  | some _ => m.map (fun e => if e.1 == k then (e.1, e.2 + 1) else e)

/-- Journal.posting_dedup_keys: the multiset (as a count dictionary) of
dedup keys of the postings, optionally restricted to one account (by
Account equality, hence by number) and to dates strictly after a cutoff. -/
def postingDedupKeys (txns : List JTxn) (account : Option AccountTree)
    (after : Option Int) : List ((Int × Int × Int × Option String) × Nat) :=
  (flatPostings txns).foldl (fun m p =>
    if (match account with | some a => !(pyEqA p.account a) | none => false) then m
    else if (match after with | some d => decide (p.date ≤ d) | none => false) then m
    else bumpKey m (dedupKey p)) []

/-- Journal.is_budget_account: membership of the account in the
configured budget account list (Python in, hence Account.__eq__). -/
def isBudgetAccount (budgetAccounts : List AccountTree) (a : AccountTree) : Bool :=
  pyMemA a budgetAccounts

/-- A classification rule of autoimport.py: optional date range, amount
range, and literal patterns over the account identifier, statement
description and payee; the offsetting target account (None drops the
posting), and optional payee/comment overrides. -/
structure CRule where
  mDateFrom : Option Int
  mDateTo : Option Int
  mAmntFrom : Option Int
  mAmntTo : Option Int
  mAccount : Option String
  mStDesc : Option String
  mPayee : Option String
  secondAccount : Option AccountTree
  payee : Option String
  comment : Option String

/-- The date-from guard of classify: skip the rule iff the bound is
truthy (a date, since date objects are never falsy) and the posting date
is before it. -/
def dateFromOk (bound : Option Int) (d : Int) : Bool :=
  match bound with
  | none => true
  | some x => !(d < x)

/-- The date-to guard of classify. -/
def dateToOk (bound : Option Int) (d : Int) : Bool :=
  match bound with
  | none => true
  | some x => !(x < d)

/-- The amount-from guard of classify: Python truthiness makes a bound
equal to 0 behave as if absent. -/
def amntFromOk (bound : Option Int) (a : Int) : Bool :=
  match bound with
  | none => true
  | some x => if x == 0 then true else !(a < x)

/-- The amount-to guard of classify, with the same truthiness caveat. -/
def amntToOk (bound : Option Int) (a : Int) : Bool :=
  match bound with
  | none => true
  | some x => if x == 0 then true else !(x < a)

/-- The account-identifier regex guard of classify: an absent or empty
pattern is falsy and imposes nothing; otherwise re.match anchors at the
start only. -/
def reAccOk (pat : Option String) (ident : String) : Bool :=
  match pat with
  | none => true
  | some q => if q == "" then true else BB.reMatchLit q ident

/-- The statement-description / payee regex guard of classify: a truthy
pattern fails on an absent field and otherwise matches at the start. -/
def reOptOk (pat : Option String) (s : Option String) : Bool :=
  match pat with
  | none => true
  | some q =>
    if q == "" then true
    else
      match s with
      | none => false
      | some t => BB.reMatchLit q t

/-- The rule-matching condition of the classify loop: the conjunction of
all the guards (each continue skips the rule when its guard fails). -/
def ruleMatches (r : CRule) (p : JPosting) : Bool :=
  dateFromOk r.mDateFrom p.date && dateToOk r.mDateTo p.date &&
  amntFromOk r.mAmntFrom p.amount && amntToOk r.mAmntTo p.amount &&
  reAccOk r.mAccount p.account.identifier &&
  reOptOk r.mStDesc p.stDesc && reOptOk r.mPayee p.payee

/-- The balanced two-posting transaction built by classify: the original
posting plus the offsetting posting on the second account, sharing the
payee, statement date, statement description and comment. -/
def mkTwoPostingTxn (p : JPosting) (acc2 : AccountTree)
    (payee comment : Option String) : JTxn :=
  { id := none,
    postings :=
      [{ pid := 0, date := p.date, account := p.account, amount := p.amount,
         payee := payee, stDate := p.stDate, stDesc := p.stDesc, comment := comment },
       { pid := 0, date := p.date, account := acc2, amount := -p.amount,
         payee := payee, stDate := p.stDate, stDesc := p.stDesc, comment := comment }] }

/-- The per-posting body of classify: find the first matching rule; a
match with no target drops the posting, a match with a target offsets
into it with the truthy comment/payee overrides applied, and no match
offsets into the default account. -/
def classifyOne (rules : List CRule) (defaultSnd : AccountTree) (p : JPosting) :
    Option (Bool × JTxn) :=
  match rules.find? (fun r => ruleMatches r p) with
  | some r =>
    match r.secondAccount with
    | none => none
    | some acc2 =>
      let comment := if BB.truthyS r.comment then r.comment else none
      let payee := if BB.truthyS r.payee then r.payee else p.payee
      some (true, mkTwoPostingTxn p acc2 payee comment)
  | none => some (false, mkTwoPostingTxn p defaultSnd p.payee none)

/-- classify of autoimport.py: the per-posting classification over the
raw postings, dropped postings producing no transaction. -/
def classify (ps : List JPosting) (rules : List CRule) (defaultSnd : AccountTree) :
    List (Bool × JTxn) :=
  ps.filterMap (classifyOne rules defaultSnd)

end Journal

namespace Chart

/-! Embedding of build_chart_of_accounts of src/balancebook/account.py.
Following the arena design note of the specification, the account graph
after parent linking is a list of account records indexed by position,
with the parent stored as an index; the cycle check walks indices.  The
five fixed roots (default i18n, so their identifiers are the English
type names) occupy positions 0 to 4. -/

/-- An input account record (one row of the accounts file). -/
structure AccIn where
  identifier : String
  name : String
  number : Int
  parent : Option String
deriving DecidableEq, Repr

/-- An account of the linked arena: the parent is an index into the
arena (None for roots). -/
structure ArenaAcc where
  identifier : String
  name : String
  number : Int
  parentIdx : Option Nat
deriving DecidableEq, Repr

instance : Inhabited ArenaAcc := ⟨{ identifier := "", name := "", number := 0, parentIdx := none }⟩

/-- The reserved root identifiers, in AccountType order. -/
def rootIdents : List String :=
  ["Assets", "Liabilities", "Equity", "Income", "Expenses"]

/-- valid_account_type_number: the number range of the account type with
the given index (0 = Assets, ..., 4 = Expenses). -/
def validNumber (n : Int) (typeIdx : Nat) : Bool :=
  1000 * (typeIdx + 1 : Int) ≤ n && n ≤ 1000 * (typeIdx + 1 : Int) + 999

/-- Errors of chart-of-accounts construction.  The outOfFuel result marks
a walk of the parent chain that did not terminate within the given fuel;
the failing-input theorem shows it arises for every fuel, which is the
shallow form of the source loop running forever. -/
inductive BuildErr where
  | accountNumberNotUnique
  | accountIdentifierNotUnique
  | reservedAccountId (i : String)
  | numberInvalid (n : Int)
  | accountNumberReserved (i : String)
  | parentAccountNotSpecified (i : String)
  | parentAccountNotFound (p : String)
  | accountCycle (i : String)
  | outOfFuel
deriving DecidableEq, Repr

/-- The default five root records (initialize_chart_of_accounts with the
identity i18n): identifier = name = type name, numbers 1000..5000. -/
def defaultRoots : List AccIn :=
  (List.range 5).map (fun i =>
    { identifier := rootIdents.getD i "", name := rootIdents.getD i "",
      number := 1000 * ((i : Int) + 1), parent := none })

/-- The loop classifying records as root overrides or ordinary accounts:
a record whose identifier is a reserved root identifier must have no
parent and an in-range number, and replaces that root. -/
def splitRoots : List AccIn → List AccIn → List AccIn →
    Except BuildErr (List AccIn × List AccIn)
  | [], roots, nonTop => .ok (roots, nonTop)
  | a :: rest, roots, nonTop =>
    match rootIdents.indexOf? a.identifier with
    | some i =>
      if a.parent.isSome then .error (.reservedAccountId a.identifier)
      else if !(validNumber a.number i) then .error (.numberInvalid a.number)
      else splitRoots rest (roots.set i a) nonTop
    | none => splitRoots rest roots (nonTop ++ [a])

/-- The double check that no ordinary account reuses a root number. -/
def chkTopNumbers (roots nonTop : List AccIn) : Except BuildErr Unit :=
  match nonTop.find? (fun a => roots.any (fun r => r.number == a.number)) with
  | some a => .error (.accountNumberReserved a.identifier)
  | none => .ok ()

/-- Index lookup by identifier in the with-top-accounts list (the
account_by_id dict; identifiers are unique at this point). -/
def identIdx (withTop : List AccIn) (ident : String) : Option Nat :=
  withTop.findIdx? (fun a => a.identifier == ident)

/-- The parent-linking loop: every ordinary account must declare a parent
that resolves by identifier. -/
def linkParents (withTop : List AccIn) : List AccIn →
    Except BuildErr (List ArenaAcc)
  | [] => .ok []
  | a :: rest =>
    match a.parent with
    | none => .error (.parentAccountNotSpecified a.identifier)
    | some pid =>
      match identIdx withTop pid with
      | none => .error (.parentAccountNotFound pid)
      | some i =>
        match linkParents withTop rest with
        | .error e => .error e
        | .ok tail =>
          .ok ({ identifier := a.identifier, name := a.name,
                 number := a.number, parentIdx := some i } :: tail)

/-- The result of walking one parent chain. -/
inductive WalkR where
  | root
  | cycle
  | fuelOut
deriving DecidableEq, Repr

/-- The while loop of the cycle check: follow parents until None,
raising when an account with the number of the starting account recurs
(parent == acc is Account.__eq__, i.e. number equality). -/
def walkChk (arena : List ArenaAcc) (target : Int) : Nat → Option Nat → WalkR
  | _, none => .root
  | 0, some _ => .fuelOut
  | fuel + 1, some j =>
    if (arena.getD j default).number == target then .cycle
    else walkChk arena target fuel (arena.getD j default).parentIdx

/-- The cycle-check loop over the arena in order (roots first, then the
ordinary accounts in input order); accounts without a parent are
skipped. -/
def cycleChkFrom (arena : List ArenaAcc) (fuel : Nat) :
    List ArenaAcc → Except BuildErr Unit
  | [] => .ok ()
  | a :: rest =>
    match a.parentIdx with
    | none => cycleChkFrom arena fuel rest
    | some p0 =>
      match walkChk arena a.number fuel (some p0) with
      | .root => cycleChkFrom arena fuel rest
      | .cycle => .error (.accountCycle a.identifier)
      | .fuelOut => .error .outOfFuel

/-- The walk from an account to its root, by parent indices. -/
def walkRoot (arena : List ArenaAcc) : Nat → Nat → Except BuildErr Nat
  | 0, i =>
    match (arena.getD i default).parentIdx with
    | none => .ok i
    | some _ => .error .outOfFuel
  | fuel + 1, i =>
    match (arena.getD i default).parentIdx with
    | none => .ok i
    | some p => walkRoot arena fuel p

/-- verify_chart_of_accounts: every account's number must lie in the
range of its transitively-resolved root type (the roots, at indices 0 to
4, determine the type).  The root override and default numbers are
themselves in range, so including the roots in the check matches the
source. -/
def rangeChk (arena : List ArenaAcc) (fuel : Nat) :
    List ArenaAcc → Except BuildErr Unit
  | [] => .ok ()
  | a :: rest =>
    match walkRoot arena fuel (arena.findIdx (fun x => x == a)) with
    | .error e => .error e
    | .ok r =>
      if validNumber a.number r then rangeChk arena fuel rest
      else .error (.numberInvalid a.number)

/-- verify_accounts followed by the phases of build_chart_of_accounts up
to (and excluding) the cycle check: uniqueness checks, root overrides,
root-number reuse check, parent linking.  Produces the linked arena
(roots first). -/
def buildArena (rows : List AccIn) : Except BuildErr (List ArenaAcc) :=
  if !((rows.map (fun a => a.number)).Nodup : Bool) then
    .error .accountNumberNotUnique
  else if !((rows.map (fun a => a.identifier)).Nodup : Bool) then
    .error .accountIdentifierNotUnique
  else
    match splitRoots rows defaultRoots [] with
    | .error e => .error e
    | .ok (roots, nonTop) =>
      match chkTopNumbers roots nonTop with
      | .error e => .error e
      | .ok _ =>
        let withTop := roots ++ nonTop
        match linkParents withTop nonTop with
        | .error e => .error e
        | .ok linked =>
          let rootArena := roots.map (fun r =>
            { identifier := r.identifier, name := r.name, number := r.number,
              parentIdx := none : ArenaAcc })
          .ok (rootArena ++ linked)

/-- build_chart_of_accounts: the arena phases, the cycle check, and the
number-range verification.  The fuel bounds the parent-chain walks; a
result of outOfFuel for every fuel means the source loops forever. -/
def buildChart (fuel : Nat) (rows : List AccIn) : Except BuildErr (List ArenaAcc) :=
  match buildArena rows with
  | .error e => .error e
  | .ok arena =>
    match cycleChkFrom arena fuel arena with
    | .error e => .error e
    | .ok _ =>
      match rangeChk arena fuel arena with
      | .error e => .error e
      | .ok _ => .ok arena

end Chart

namespace Budget

/-! Embedding of src/balancebook/budget.py.  The module-level function
next_date takes two parameters (d, r); both call sites pass three
arguments (d, recurrence, interval), so in Python every such call raises
TypeError before any date arithmetic runs.  The embedding therefore
throws a typeError wherever the source reaches one of those calls, and
never needs the month/year stepping itself. -/

/-- The recurrence kinds. -/
inductive RecurrenceType where
  | once
  | daily
  | weekly
  | monthly
  | yearly
deriving DecidableEq, Repr

/-- A recurrence: kind, interval, optional inclusive end date, optional
number of occurrences. -/
structure Recurrence where
  recType : RecurrenceType
  interval : Int
  endDate : Option Int
  endNb : Option Int
deriving DecidableEq, Repr

/-- Python-level failures of the budget code. -/
inductive PyError where
  | typeError
deriving DecidableEq, Repr

/-- BudgetTxnRule.date_list: the once case returns the start date alone;
every other case enters the while loop, whose body updates d with
next_date(d, recurrence, interval) — a call with three arguments to the
two-parameter next_date, hence a TypeError as soon as the loop body runs
(that is, whenever start is at most the effective end). -/
def dateListCore (start : Int) (rec : Recurrence) (endd : Int) :
    Except PyError (List Int) :=
  if rec.recType = .once then .ok [start]
  else
    let end2 := match rec.endDate with
      | none => endd
      | some ed => min endd ed
    if start ≤ end2 then .error .typeError else .ok []

/-- A budget rule after construction. -/
structure BudgetTxnRule where
  name : String
  start : Int
  amount : Int
  recurrence : Recurrence
  accountNumber : Int
deriving DecidableEq, Repr

/-- BudgetTxnRule.__normalize_end__, run by the constructor: the once
case pins the recurrence to a single occurrence; the end-date branch
calls date_list (which raises TypeError whenever it would produce a
date); the end-count branch steps next_date(d, recurrence, interval)
end-count minus one times, raising TypeError on the first step (a count
of one, falsy zero count or None skips the loop; Python truthiness makes
a zero count behave as absent). -/
def normalizeEnd (start : Int) (rec : Recurrence) : Except PyError Recurrence :=
  if rec.recType = .once then
    .ok { rec with endDate := some start, interval := 1, endNb := some 1 }
  else
    match rec.endDate with
    | some ed =>
      match dateListCore start rec ed with
      | .error e => .error e
      | .ok ds =>
        let count := (ds.length : Int)
        if rec.endNb.isNone || count ≤ (rec.endNb.getD 0) then
          .ok { rec with endNb := some count }
        else normalizeEndNb start { rec with endNb := rec.endNb }
    | none => normalizeEndNb start rec
where
  /-- The end-count branch of __normalize_end__. -/
  normalizeEndNb (start : Int) (rec : Recurrence) : Except PyError Recurrence :=
    if BB.truthyI rec.endNb then
      if rec.endNb.getD 0 - 1 ≥ 1 then .error .typeError
      else
        let d := start
        if rec.endDate.isNone || d ≤ rec.endDate.getD d then
          .ok { rec with endDate := some d }
        else .ok rec
    else .ok rec

/-- The BudgetTxnRule constructor: store the fields and normalize the
recurrence end. -/
def mkBudgetTxnRule (name : String) (start : Int) (amount : Int)
    (rec : Recurrence) (accountNumber : Int) : Except PyError BudgetTxnRule :=
  match normalizeEnd start rec with
  | .error e => .error e
  | .ok rec2 =>
    .ok { name := name, start := start, amount := amount,
          recurrence := rec2, accountNumber := accountNumber }

/-- BudgetTxnRule.date_list on a constructed rule. -/
def dateList (br : BudgetTxnRule) (endd : Int) : Except PyError (List Int) :=
  dateListCore br.start br.recurrence endd

/-- budget_txn_rule_to_txns: the loop over date_list builds a two-posting
transaction per date but never appends it to the result list, which is
returned still empty.  We record each projected date's constructed
posting pair to make the omission visible, and return what the source
returns. -/
def budgetTxnRuleToTxns (br : BudgetTxnRule) (budgetAccountNumber : Int)
    (maxEnd : Int) : Except PyError (List (Int × List (Int × Int))) :=
  match dateList br maxEnd with
  | .error e => .error e
  | .ok ds =>
    let _built := ds.map (fun d =>
      (d, [(budgetAccountNumber, br.amount), (br.accountNumber, -br.amount)]))
    let txns : List (Int × List (Int × Int)) := []
    .ok txns

end Budget

namespace EX

/-! Concrete data used by the example clauses of the claims and by the
witnesses.  Dates are proleptic Gregorian ordinals: 2023-01-01 is 738521,
2023-01-10 is 738530, 2023-01-15 is 738535, 2023-01-20 is 738540,
2022-12-01 is 738490. -/

open Journal

/-- A chequing asset account with no children. -/
def chequing : AccountTree := .mk 1001 "Chequing" "Chequing" []

/-- An income account used for the offsetting side of the examples. -/
def salary : AccountTree := .mk 4001 "Salary" "Salary" []

/-- An expense account used as classification target. -/
def groceries : AccountTree := .mk 5001 "Groceries" "Groceries" []

/-- The configured default second account for unmatched postings. -/
def unknownExp : AccountTree := .mk 5999 "Unknown" "Unknown" []

/-- An account whose identifier AB properly extends the pattern A. -/
def abAccount : AccountTree := .mk 1002 "AB" "AB" []

/-- Balance example journal: +500 on 2023-01-01 and -200 on 2023-01-15
on the chequing account, each offset against salary. -/
def c2Txns : List JTxn :=
  [{ id := some 1,
     postings :=
       [{ pid := 1, date := 738521, account := chequing, amount := 500,
          payee := none, stDate := 738521, stDesc := none, comment := none },
        { pid := 2, date := 738521, account := salary, amount := -500,
          payee := none, stDate := 738521, stDesc := none, comment := none }] },
   { id := some 2,
     postings :=
       [{ pid := 3, date := 738535, account := chequing, amount := -200,
          payee := none, stDate := 738535, stDesc := none, comment := none },
        { pid := 4, date := 738535, account := salary, amount := 200,
          payee := none, stDate := 738535, stDesc := none, comment := none }] }]

/-- Reconciliation counterexample journal: the chequing account holds
+400 (thirty days before the checkpoint) and +300 (two days before), so
the statement-basis balance at the checkpoint date 2023-01-15 is 700 and
only the +300 posting lies in the 7-day look-back window. -/
def cex4Txns : List JTxn :=
  [{ id := some 1,
     postings :=
       [{ pid := 1, date := 738505, account := chequing, amount := 400,
          payee := none, stDate := 738505, stDesc := none, comment := none },
        { pid := 2, date := 738505, account := salary, amount := -400,
          payee := none, stDate := 738505, stDesc := none, comment := none }] },
   { id := some 2,
     postings :=
       [{ pid := 3, date := 738533, account := chequing, amount := 300,
          payee := none, stDate := 738533, stDesc := none, comment := none },
        { pid := 4, date := 738533, account := salary, amount := -300,
          payee := none, stDate := 738533, stDesc := none, comment := none }] }]

/-- The checkpoint of the reconciliation example: chequing must show 1000
on 2023-01-15. -/
def bal4 : JBalance := { date := 738535, account := chequing, stBalance := 1000 }

/-- The one eligible posting of the counterexample journal: +300 two days
before the checkpoint. -/
def cex4P3 : JPosting :=
  { pid := 3, date := 738533, account := chequing, amount := 300,
    payee := none, stDate := 738533, stDesc := none, comment := none }

/-- The journal state of the reconciliation counterexample. -/
def cex4J : JState :=
  { txns := cex4Txns, assertions := [bal4], asdAccounts := [chequing],
    abAccounts := [], dayslimit := 7 }

/-- The one eligible posting of the amended journal: -300 two days before
the checkpoint, statement date not yet bumped. -/
def amd4P3 : JPosting :=
  { pid := 3, date := 738533, account := chequing, amount := -300,
    payee := none, stDate := 738533, stDesc := none, comment := none }

/-- Reconciliation amended-example journal: +1000 thirty days before the
checkpoint and -300 two days before it; again the computed balance is 700
and only the -300 posting is eligible. -/
def amd4Txns : List JTxn :=
  [{ id := some 1,
     postings :=
       [{ pid := 1, date := 738505, account := chequing, amount := 1000,
          payee := none, stDate := 738505, stDesc := none, comment := none },
        { pid := 2, date := 738505, account := salary, amount := -1000,
          payee := none, stDate := 738505, stDesc := none, comment := none }] },
   { id := some 2,
     postings :=
       [{ pid := 3, date := 738533, account := chequing, amount := -300,
          payee := none, stDate := 738533, stDesc := none, comment := none },
        { pid := 4, date := 738533, account := salary, amount := 300,
          payee := none, stDate := 738533, stDesc := none, comment := none }] }]

/-- The journal state of the amended reconciliation example. -/
def amd4J : JState :=
  { txns := amd4Txns, assertions := [bal4], asdAccounts := [chequing],
    abAccounts := [], dayslimit := 7 }

/-- The selected posting of the amended example after its statement date
is bumped to the day after the checkpoint. -/
def amd4Upd : JPosting :=
  { pid := 3, date := 738533, account := chequing, amount := -300,
    payee := none, stDate := 738536, stDesc := none, comment := none }

/-- Idempotence witness journal: both transactions cleared, with a
checkpoint asserting the computed statement balance 300 of chequing at
2023-01-15. -/
def cwJ : JState :=
  { txns := c2Txns, assertions := [{ date := 738535, account := chequing, stBalance := 300 }],
    asdAccounts := [chequing], abAccounts := [(chequing, salary)], dayslimit := 7 }

/-- A classification rule whose only predicate is an amount between 100
and 200, targeting the groceries account. -/
def rule100200 : CRule :=
  { mDateFrom := none, mDateTo := none, mAmntFrom := some 100, mAmntTo := some 200,
    mAccount := none, mStDesc := none, mPayee := none,
    secondAccount := some groceries, payee := none, comment := none }

/-- A raw imported posting of 150 on the chequing account. -/
def p150 : JPosting :=
  { pid := 1, date := 738521, account := chequing, amount := 150,
    payee := none, stDate := 738521, stDesc := some "STORE", comment := none }

/-- A raw imported posting of 500 on the chequing account. -/
def p500 : JPosting :=
  { pid := 2, date := 738521, account := chequing, amount := 500,
    payee := none, stDate := 738521, stDesc := some "STORE", comment := none }

/-- A classification rule whose only predicate is the account regex A,
targeting the groceries account. -/
def ruleA : CRule :=
  { mDateFrom := none, mDateTo := none, mAmntFrom := none, mAmntTo := none,
    mAccount := some "A", mStDesc := none, mPayee := none,
    secondAccount := some groceries, payee := none, comment := none }

/-- A raw imported posting on the account with identifier AB. -/
def pAB : JPosting :=
  { pid := 1, date := 738521, account := abAccount, amount := 150,
    payee := none, stDate := 738521, stDesc := some "STORE", comment := none }

/-- The accounts dictionary of the transaction-loading witness. -/
def c1Accs : List (String × TxnV1.AccountRef) :=
  [("Chequing", { identifier := "Chequing", number := 1001 }),
   ("Salary", { identifier := "Salary", number := 4001 })]

/-- The csv rows of the transaction-loading witness: one transaction of
two balancing postings dated 2023-01-01. -/
def c1Rows : List TxnV1.Row :=
  [{ txnId := 1, date := 738521, account := "Chequing", amount := 500,
     stDate := none, stDesc := none, comment := none },
   { txnId := 1, date := 738521, account := "Salary", amount := -500,
     stDate := none, stDesc := none, comment := none }]

/-- Account list with a cycle (a -> b -> a) and an account c whose parent
chain merely leads into the cycle, c listed first. -/
def cyc3 : List Chart.AccIn :=
  [{ identifier := "c", name := "c", number := 1003, parent := some "a" },
   { identifier := "a", name := "a", number := 1001, parent := some "b" },
   { identifier := "b", name := "b", number := 1002, parent := some "a" }]

/-- Account list consisting only of the two-cycle a -> b -> a. -/
def cyc2 : List Chart.AccIn :=
  [{ identifier := "a", name := "a", number := 1001, parent := some "b" },
   { identifier := "b", name := "b", number := 1002, parent := some "a" }]

/-- The linked arena of cyc3: the five default roots, then c, a, b with
parent indices 6 (a), 7 (b) and 6 (a). -/
def arenaCyc3 : List Chart.ArenaAcc :=
  [{ identifier := "Assets", name := "Assets", number := 1000, parentIdx := none },
   { identifier := "Liabilities", name := "Liabilities", number := 2000, parentIdx := none },
   { identifier := "Equity", name := "Equity", number := 3000, parentIdx := none },
   { identifier := "Income", name := "Income", number := 4000, parentIdx := none },
   { identifier := "Expenses", name := "Expenses", number := 5000, parentIdx := none },
   { identifier := "c", name := "c", number := 1003, parentIdx := some 6 },
   { identifier := "a", name := "a", number := 1001, parentIdx := some 7 },
   { identifier := "b", name := "b", number := 1002, parentIdx := some 6 }]

/-- The monthly recurrence of the budget example: interval 1, three
occurrences. -/
def monthly3 : Budget.Recurrence :=
  { recType := .monthly, interval := 1, endDate := none, endNb := some 3 }

/-- A once recurrence. -/
def onceRec : Budget.Recurrence :=
  { recType := .once, interval := 1, endDate := none, endNb := none }

/-- Accounts differing in identifier, name and children but sharing the
number 1001. -/
def acc10a : AccountTree := .mk 1001 "Chequing" "Chequing CAD" []

/-- The same account number under a different identifier, name and
subtree. -/
def acc10b : AccountTree := .mk 1001 "Checking" "Checking USD" [.mk 1005 "Sub" "Sub" []]


/-- The transaction produced by loading the two witness rows. -/
def c1Loaded : TxnV1.Txn :=
  { id := 1, date := 738521,
    postings :=
      [{ id := 1, account := { identifier := "Chequing", number := 1001 },
         amount := 500, stDate := 738521, stDesc := none, comment := none },
       { id := 2, account := { identifier := "Salary", number := 4001 },
         amount := -500, stDate := 738521, stDesc := none, comment := none }] }

/-- The once budget rule after construction (normalize pins the end to a
single occurrence at the start date). -/
def onceRule : Budget.BudgetTxnRule :=
  { name := "Once", start := 738535, amount := 150000,
    recurrence := { recType := .once, interval := 1, endDate := some 738535,
                    endNb := some 1 },
    accountNumber := 5001 }

end EX

section OrderInstances

/-! Totality and transitivity of the boolean sort comparisons, needed for
the sortedness of the stable-sort embedding. -/

instance instTotLex2 {α : Type} (f : α → Int × Int) :
    IsTotal α (fun x y => BB.lexLE2 (f x) (f y) = true) := by
  constructor
  intro a b
  simp only [BB.lexLE2, Bool.or_eq_true, Bool.and_eq_true, decide_eq_true_eq, beq_iff_eq]
  omega

instance instTransLex2 {α : Type} (f : α → Int × Int) :
    IsTrans α (fun x y => BB.lexLE2 (f x) (f y) = true) := by
  constructor
  intro a b c
  simp only [BB.lexLE2, Bool.or_eq_true, Bool.and_eq_true, decide_eq_true_eq, beq_iff_eq]
  omega

instance instTotLex3 {α : Type} (f : α → Int × Int × Int) :
    IsTotal α (fun x y => BB.lexLE3 (f x) (f y) = true) := by
  constructor
  intro a b
  simp only [BB.lexLE3, BB.lexLE2, Bool.or_eq_true, Bool.and_eq_true, decide_eq_true_eq,
    beq_iff_eq]
  omega

instance instTransLex3 {α : Type} (f : α → Int × Int × Int) :
    IsTrans α (fun x y => BB.lexLE3 (f x) (f y) = true) := by
  constructor
  intro a b c
  simp only [BB.lexLE3, BB.lexLE2, Bool.or_eq_true, Bool.and_eq_true, decide_eq_true_eq,
    beq_iff_eq]
  omega

instance instTot1 {α : Type} (f : α → Int) :
    IsTotal α (fun x y => (f x ≤ f y : Bool) = true) := by
  constructor
  intro a b
  simp only [decide_eq_true_eq]
  omega

instance instTrans1 {α : Type} (f : α → Int) :
    IsTrans α (fun x y => (f x ≤ f y : Bool) = true) := by
  constructor
  intro a b c
  simp only [decide_eq_true_eq]
  omega

instance instTot1D {α : Type} (f : α → Int) :
    IsTotal α (fun x y => (f y ≤ f x : Bool) = true) := by
  constructor
  intro a b
  simp only [decide_eq_true_eq]
  omega

instance instTrans1D {α : Type} (f : α → Int) :
    IsTrans α (fun x y => (f y ≤ f x : Bool) = true) := by
  constructor
  intro a b c
  simp only [decide_eq_true_eq]
  omega

end OrderInstances

section Helpers

/-- A left fold whose step fixes the initial state is the identity. -/
theorem foldlFixed {α β : Type} (f : β → α → β) (l : List α) (st : β)
    (h : ∀ b ∈ l, f st b = st) : l.foldl f st = st := by
  induction l with
  | nil => rfl
  | cons a as ih =>
    have ha : f st a = st := h a (List.mem_cons_self a as)
    simp only [List.foldl_cons, ha]
    exact ih (fun b hb => h b (List.mem_cons_of_mem a hb))

end Helpers

namespace TxnV1

/-- When the verification loop succeeds, every transaction passed
verify_txn. -/
theorem verifyAll_ok {ts : List Txn} (h : verifyAll ts = .ok ()) :
    ∀ t ∈ ts, verifyTxn t = .ok () := by
  induction ts with
  | nil => intro t ht; cases ht
  | cons t ts ih =>
    intro u hu
    unfold verifyAll at h
    cases hv : verifyTxn t with
    | error e => rw [hv] at h; cases h
    | ok w =>
      rw [hv] at h
      rcases List.mem_cons.mp hu with rfl | hu
      · cases w; exact hv
      · exact ih h u hu

/-- What a successful verify_txn guarantees. -/
theorem verifyTxn_ok {t : Txn} (h : verifyTxn t = .ok ()) :
    2 ≤ t.postings.length ∧ (t.postings.map (fun p => p.amount)).sum = 0 := by
  unfold verifyTxn at h
  by_cases h1 : t.postings.length < 2
  · rw [if_pos h1] at h; cases h
  · rw [if_neg h1] at h
    by_cases h2 : (t.postings.map (fun p => p.amount)).sum ≠ 0
    · rw [if_pos h2] at h; cases h
    · exact ⟨Nat.le_of_not_lt h1, not_not.mp h2⟩

end TxnV1

/-- Claim C1: every transaction accepted by transaction loading and
verification has at least two postings, and for every date d, the
postings carrying date d (a posting's date being its parent transaction's
date in this snapshot) sum to exactly zero. -/
theorem c1_loaded_txns_per_date_zero_sum :
    ∀ (rows : List TxnV1.Row) (accs : List (String × TxnV1.AccountRef))
      (txns : List TxnV1.Txn),
      TxnV1.loadTxns rows accs = .ok txns →
      ∀ t ∈ txns, 2 ≤ t.postings.length ∧
        ∀ d : Int,
          ((t.postings.filter (fun p => TxnV1.postingDate t p == d)).map
            (fun p => p.amount)).sum = 0 := by
  intro rows accs txns h t ht
  unfold TxnV1.loadTxns at h
  cases hm : rows.foldlM (TxnV1.addRow accs) [] with
  | error e => rw [hm] at h; cases h
  | ok m =>
    rw [hm] at h
    have h2 : (match TxnV1.verifyAll (m.map (fun e => e.2)) with
        | Except.error e => (Except.error e : Except TxnV1.LoadErr (List TxnV1.Txn))
        | Except.ok _ => Except.ok (m.map (fun e => e.2))) = Except.ok txns := h
    cases hv : TxnV1.verifyAll (m.map (fun e => e.2)) with
    | error e => rw [hv] at h2; cases h2
    | ok u =>
      cases u
      rw [hv] at h2
      cases h2
      have hok := TxnV1.verifyAll_ok hv t ht
      obtain ⟨hlen, hsum⟩ := TxnV1.verifyTxn_ok hok
      refine ⟨hlen, ?_⟩
      intro d
      by_cases hd : t.date = d
      · have hp : (fun p : TxnV1.Posting => TxnV1.postingDate t p == d) =
            fun _ => true := by
          funext p; simp [TxnV1.postingDate, hd]
        rw [hp, List.filter_true]
        exact hsum
      · have hp : (fun p : TxnV1.Posting => TxnV1.postingDate t p == d) =
            fun _ => false := by
          funext p; simp [TxnV1.postingDate, hd]
        rw [hp, List.filter_false]
        rfl

/-- Witness for C1 at a concrete two-row csv input. -/
theorem c1_witness :
    2 ≤ EX.c1Loaded.postings.length ∧
    ((EX.c1Loaded.postings.filter
        (fun p => TxnV1.postingDate EX.c1Loaded p == 738521)).map
      (fun p => p.amount)).sum = 0 := by
  have h := c1_loaded_txns_per_date_zero_sum EX.c1Rows EX.c1Accs [EX.c1Loaded] rfl
    EX.c1Loaded (List.mem_singleton.mpr rfl)
  exact ⟨h.1, h.2 738521⟩

/-- Claim C8: the budget unrolling code is broken.  For the monthly rule
of the specification example (start 2023-01-15, interval 1, end-count 3)
already the rule constructor raises TypeError, because it calls the
two-parameter next_date with three arguments; and for a once rule, whose
single projected date is produced without stepping, budget_txn_rule_to_txns
returns the empty list because the loop never appends the transaction it
builds. -/
theorem c8_budget_unrolling_code_bug :
    Budget.mkBudgetTxnRule "Groceries" 738535 150000 EX.monthly3 5001 =
      .error .typeError ∧
    Budget.mkBudgetTxnRule "Once" 738535 150000 EX.onceRec 5001 = .ok EX.onceRule ∧
    Budget.dateList EX.onceRule 999999 = .ok [738535] ∧
    Budget.budgetTxnRuleToTxns EX.onceRule 6001 999999 = .ok [] :=
  ⟨rfl, rfl, rfl, rfl⟩

/-- The parent walk of the cycle check, started from account c of the
cyc3 input, alternates between a and b forever: whatever the fuel, it
neither reaches a root nor finds an account equal to c. -/
theorem walkCyc3 : ∀ n : Nat,
    Chart.walkChk EX.arenaCyc3 1003 n (some 6) = .fuelOut ∧
    Chart.walkChk EX.arenaCyc3 1003 n (some 7) = .fuelOut := by
  intro n
  induction n with
  | zero => exact ⟨rfl, rfl⟩
  | succ k ih =>
    refine ⟨?_, ?_⟩
    · have hstep : Chart.walkChk EX.arenaCyc3 1003 (k + 1) (some 6) =
          Chart.walkChk EX.arenaCyc3 1003 k (some 7) := rfl
      rw [hstep]; exact ih.2
    · have hstep : Chart.walkChk EX.arenaCyc3 1003 (k + 1) (some 7) =
          Chart.walkChk EX.arenaCyc3 1003 k (some 6) := rfl
      rw [hstep]; exact ih.1

/-- Claim C7: on an input whose cycle is reached through account c
first, chart construction never raises the cycle error and never returns
(for every fuel the parent walk is still running, the shallow form of the
source while loop never terminating); on an input where an account of
the cycle itself is checked first, the cycle error is raised, and the
cycle is never auto-corrected. -/
theorem c7_cycle_detection_code_bug :
    (∀ fuel : Nat, Chart.buildChart fuel EX.cyc3 = .error .outOfFuel) ∧
    Chart.buildChart 10 EX.cyc2 = .error (.accountCycle "a") := by
  constructor
  · intro fuel
    have hcyc : Chart.cycleChkFrom EX.arenaCyc3 fuel EX.arenaCyc3 =
        .error .outOfFuel := by
      have hred : Chart.cycleChkFrom EX.arenaCyc3 fuel EX.arenaCyc3 =
          (match Chart.walkChk EX.arenaCyc3 1003 fuel (some 6) with
           | .root => Chart.cycleChkFrom EX.arenaCyc3 fuel
               [{ identifier := "a", name := "a", number := 1001, parentIdx := some 7 },
                { identifier := "b", name := "b", number := 1002, parentIdx := some 6 }]
           | .cycle => Except.error (.accountCycle "c")
           | .fuelOut => Except.error .outOfFuel) := rfl
      rw [hred, (walkCyc3 fuel).1]
    have hfinal : Chart.buildChart fuel EX.cyc3 =
        (match Chart.cycleChkFrom EX.arenaCyc3 fuel EX.arenaCyc3 with
         | .error e => Except.error e
         | .ok _ =>
           match Chart.rangeChk EX.arenaCyc3 fuel EX.arenaCyc3 with
           | .error e => Except.error e
           | .ok _ => Except.ok EX.arenaCyc3) := rfl
    rw [hfinal, hcyc]
  · rfl

/-- Claim C10: Account equality, ordering and hashing are determined
solely by the account number, and every membership test, dict lookup,
budget-account check and dedup-key computation keyed on accounts is
invariant under replacing an account by one with the same number, whatever
their identifiers, names or subtrees. -/
theorem c10_account_identity_by_number :
    ∀ a b : Journal.AccountTree, a.number = b.number →
      Journal.pyEqA a b = true ∧
      Journal.pyHashA a = Journal.pyHashA b ∧
      (∀ c : Journal.AccountTree,
        Journal.pyEqA a c = Journal.pyEqA b c ∧ Journal.pyEqA c a = Journal.pyEqA c b ∧
        Journal.pyLtA a c = Journal.pyLtA b c ∧ Journal.pyLtA c a = Journal.pyLtA c b) ∧
      (∀ l : List Journal.AccountTree, Journal.pyMemA a l = Journal.pyMemA b l) ∧
      (∀ budgets : List Journal.AccountTree,
        Journal.isBudgetAccount budgets a = Journal.isBudgetAccount budgets b) ∧
      (∀ (β : Type) (m : List (Journal.AccountTree × β)),
        Journal.dictFindA m a = Journal.dictFindA m b) ∧
      (∀ (txns : List Journal.JTxn) (after : Option Int),
        Journal.postingDedupKeys txns (some a) after =
        Journal.postingDedupKeys txns (some b) after) := by
  intro a b h
  refine ⟨?_, ?_, ?_, ?_, ?_, ?_, ?_⟩ <;>
    simp [Journal.pyEqA, Journal.pyHashA, Journal.pyLtA, Journal.pyMemA,
      Journal.isBudgetAccount, Journal.dictFindA, Journal.postingDedupKeys, h]

/-- Witness for C10 at two concrete accounts sharing the number 1001 but
differing in identifier, name and children. -/
theorem c10_witness :
    Journal.pyEqA EX.acc10a EX.acc10b = true ∧
    Journal.pyHashA EX.acc10a = Journal.pyHashA EX.acc10b ∧
    Journal.pyMemA EX.acc10a [EX.acc10b] = Journal.pyMemA EX.acc10b [EX.acc10b] ∧
    Journal.isBudgetAccount [EX.acc10a] EX.acc10a =
      Journal.isBudgetAccount [EX.acc10a] EX.acc10b := by
  have h := c10_account_identity_by_number EX.acc10a EX.acc10b rfl
  exact ⟨h.1, h.2.1, h.2.2.2.1 [EX.acc10b], h.2.2.2.2.1 [EX.acc10a]⟩

namespace Journal

/-- find_ps on an already-satisfied checkpoint returns the empty
selection at once. -/
theorem findPs_satisfied (tls : List (Int × List (Int × Int)))
    (postings : List JPosting) (b : JBalance) (limit : Int)
    (h : accountBalanceFrom tls b.account b.date true = b.stBalance) :
    findPs tls postings b limit = some [] := by
  unfold findPs
  rw [h]
  simp

/-- auto_balance_with_new_txn on an already-satisfied checkpoint returns
None. -/
theorem autoBalanceNew_satisfied (txns : List JTxn) (b : JBalance)
    (snd : AccountTree)
    (h : accountBalance txns b.account b.date true true = b.stBalance) :
    autoBalanceWithNewTxn txns b snd = none := by
  unfold autoBalanceWithNewTxn
  rw [h]
  simp

end Journal

/-- Claim C6: both reconciliation operations are no-ops on satisfied
checkpoints: statement-date alignment returns the empty selection (no
error), auto-balance produces no transaction, and when every checkpoint
is satisfied the journal-level operations leave the postings and the
transaction list untouched (alignment returns the sorted journal
unchanged; auto-balance returns the journal as is). -/
theorem c6_reconciliation_noop_when_satisfied :
    (∀ (tls : List (Int × List (Int × Int))) (postings : List Journal.JPosting)
       (b : Journal.JBalance) (limit : Int),
       Journal.accountBalanceFrom tls b.account b.date true = b.stBalance →
       Journal.findPs tls postings b limit = some []) ∧
    (∀ (txns : List Journal.JTxn) (b : Journal.JBalance) (snd : Journal.AccountTree),
       Journal.accountBalance txns b.account b.date true true = b.stBalance →
       Journal.autoBalanceWithNewTxn txns b snd = none) ∧
    (∀ j : Journal.JState,
       (∀ b ∈ (Journal.sortData j).assertions,
         Journal.accountBalanceFrom
           (Journal.timelines (Journal.flatPostings (Journal.sortData j).txns) true)
           b.account b.date true = b.stBalance) →
       Journal.autoStatementDate j = ([], Journal.sortData j)) ∧
    (∀ j : Journal.JState,
       (∀ b ∈ j.assertions,
         Journal.accountBalance j.txns b.account b.date true true = b.stBalance) →
       Journal.autoBalance j = ([], j)) := by
  refine ⟨Journal.findPs_satisfied, Journal.autoBalanceNew_satisfied, ?_, ?_⟩
  · intro j h
    have hstep : ∀ b ∈ (Journal.sortData j).assertions,
        Journal.asdStep
          (Journal.timelines (Journal.flatPostings (Journal.sortData j).txns) true)
          (Journal.sortData j).asdAccounts (Journal.sortData j).dayslimit
          ([], (Journal.sortData j).txns) b = ([], (Journal.sortData j).txns) := by
      intro b hb
      by_cases hmem : Journal.pyMemA b.account (Journal.sortData j).asdAccounts
      · simp [Journal.asdStep, hmem, Journal.findPs_satisfied _ _ _ _ (h b hb)]
      · simp [Journal.asdStep, hmem]
    have hfold := foldlFixed _ _ _ hstep
    simp only [Journal.autoStatementDate, hfold]
  · intro j h
    have hperm := List.perm_insertionSort
      (fun x y => BB.lexLE2 ((fun b : Journal.JBalance => (b.date, b.account.number)) x)
        ((fun b : Journal.JBalance => (b.date, b.account.number)) y) = true) j.assertions
    have hstep : ∀ b ∈ BB.sortBy2 (fun b : Journal.JBalance => (b.date, b.account.number))
        j.assertions,
        Journal.abStep j.abAccounts ([], j.txns) b = ([], j.txns) := by
      intro b hb
      have hbmem : b ∈ j.assertions := hperm.mem_iff.mp hb
      cases hd : Journal.dictFindA j.abAccounts b.account with
      | none => simp [Journal.abStep, hd]
      | some snd =>
        simp [Journal.abStep, hd, Journal.autoBalanceNew_satisfied _ _ snd (h b hbmem)]
    have hfold := foldlFixed _ _ _ hstep
    simp only [Journal.autoBalance, hfold]

/-- Witness for C6 at a concrete satisfied checkpoint (chequing shows
300 on 2023-01-15, as asserted). -/
theorem c6_witness :
    Journal.findPs (Journal.timelines (Journal.flatPostings EX.c2Txns) true)
      (Journal.flatPostings EX.c2Txns)
      { date := 738535, account := EX.chequing, stBalance := 300 } 7 = some [] ∧
    Journal.autoBalanceWithNewTxn EX.c2Txns
      { date := 738535, account := EX.chequing, stBalance := 300 } EX.salary = none ∧
    Journal.autoStatementDate EX.cwJ = ([], Journal.sortData EX.cwJ) ∧
    Journal.autoBalance EX.cwJ = ([], EX.cwJ) := by
  refine ⟨?_, ?_, ?_, ?_⟩
  · exact c6_reconciliation_noop_when_satisfied.1 _ _ _ _ rfl
  · exact c6_reconciliation_noop_when_satisfied.2.1 _ _ _ rfl
  · exact c6_reconciliation_noop_when_satisfied.2.2.1 EX.cwJ (by decide)
  · exact c6_reconciliation_noop_when_satisfied.2.2.2 EX.cwJ (by decide)

namespace Journal

/-- The date-from guard passes exactly when any declared lower date bound
is at most the posting date. -/
theorem dateFromOk_iff (b : Option Int) (d : Int) :
    dateFromOk b d = true ↔ ∀ x, b = some x → x ≤ d := by
  cases b <;> simp [dateFromOk]

/-- The date-to guard passes exactly when the posting date is at most any
declared upper date bound. -/
theorem dateToOk_iff (b : Option Int) (d : Int) :
    dateToOk b d = true ↔ ∀ x, b = some x → d ≤ x := by
  cases b <;> simp [dateToOk]

/-- The amount-from guard passes exactly when any declared non-zero lower
bound is at most the amount (a bound of 0 is falsy and ignored). -/
theorem amntFromOk_iff (b : Option Int) (a : Int) :
    amntFromOk b a = true ↔ ∀ x, b = some x → x ≠ 0 → x ≤ a := by
  cases b with
  | none => simp [amntFromOk]
  | some x =>
    by_cases hx : x = 0
    · subst hx; simp [amntFromOk]
    · simp [amntFromOk, hx]

/-- The amount-to guard passes exactly when the amount is at most any
declared non-zero upper bound. -/
theorem amntToOk_iff (b : Option Int) (a : Int) :
    amntToOk b a = true ↔ ∀ x, b = some x → x ≠ 0 → a ≤ x := by
  cases b with
  | none => simp [amntToOk]
  | some x =>
    by_cases hx : x = 0
    · subst hx; simp [amntToOk]
    · simp [amntToOk, hx]

/-- The account-regex guard passes exactly when any declared non-empty
pattern matches at the start of the identifier. -/
theorem reAccOk_iff (pat : Option String) (ident : String) :
    reAccOk pat ident = true ↔
      ∀ q, pat = some q → q ≠ "" → BB.reMatchLit q ident = true := by
  cases pat with
  | none => simp [reAccOk]
  | some q =>
    by_cases hq : q = ""
    · subst hq; simp [reAccOk]
    · simp [reAccOk, hq]

/-- The optional-field regex guard passes exactly when, for any declared
non-empty pattern, the field is present and the pattern matches at its
start. -/
theorem reOptOk_iff (pat : Option String) (s : Option String) :
    reOptOk pat s = true ↔
      ∀ q, pat = some q → q ≠ "" → ∃ t, s = some t ∧ BB.reMatchLit q t = true := by
  cases pat with
  | none => simp [reOptOk]
  | some q =>
    by_cases hq : q = ""
    · subst hq; simp [reOptOk]
    · cases s <;> simp [reOptOk, hq]

end Journal

/-- Claim C5 counterexample: the pattern A does not fully match the
identifier AB, yet the classify loop (which uses Python re.match, anchored
only at the start) lets the rule match and offsets the posting into the
rule's target account instead of the default account. -/
theorem c5_counterexample :
    BB.reFullMatchLit "A" "AB" = false ∧
    Journal.classify [EX.pAB] [EX.ruleA] EX.unknownExp =
      [(true, Journal.mkTwoPostingTxn EX.pAB EX.groceries none none)] ∧
    EX.groceries.number ≠ EX.unknownExp.number :=
  ⟨rfl, rfl, by decide⟩

/-- Claim C5 (amended): a rule matches exactly when every predicate it
declares holds, where Python truthiness makes an amount bound of 0 and an
empty pattern undeclared, and the regexes match at the START of the
account identifier / statement description / payee (re.match), not the
whole string; the first matching rule wins; a match with a target yields
the balanced two-posting transaction into the target with the rule's
truthy payee override (else the raw payee) and the rule's truthy comment
(the raw comment is not propagated); a match with no target drops the
posting; no match offsets into the default account; and the amount
examples behave as specified. -/
theorem c5_classification_amended :
    (∀ (r : Journal.CRule) (p : Journal.JPosting),
       Journal.ruleMatches r p = true ↔
         ((∀ x, r.mDateFrom = some x → x ≤ p.date) ∧
          (∀ x, r.mDateTo = some x → p.date ≤ x) ∧
          (∀ x, r.mAmntFrom = some x → x ≠ 0 → x ≤ p.amount) ∧
          (∀ x, r.mAmntTo = some x → x ≠ 0 → p.amount ≤ x) ∧
          (∀ q, r.mAccount = some q → q ≠ "" →
            BB.reMatchLit q p.account.identifier = true) ∧
          (∀ q, r.mStDesc = some q → q ≠ "" →
            ∃ s, p.stDesc = some s ∧ BB.reMatchLit q s = true) ∧
          (∀ q, r.mPayee = some q → q ≠ "" →
            ∃ s, p.payee = some s ∧ BB.reMatchLit q s = true))) ∧
    (∀ (rules : List Journal.CRule) (dflt : Journal.AccountTree)
       (p : Journal.JPosting) (r : Journal.CRule),
       rules.find? (fun r => Journal.ruleMatches r p) = some r →
       r.secondAccount = none →
       Journal.classifyOne rules dflt p = none) ∧
    (∀ (rules : List Journal.CRule) (dflt : Journal.AccountTree)
       (p : Journal.JPosting) (r : Journal.CRule) (acc2 : Journal.AccountTree),
       rules.find? (fun r => Journal.ruleMatches r p) = some r →
       r.secondAccount = some acc2 →
       Journal.classifyOne rules dflt p =
         some (true, Journal.mkTwoPostingTxn p acc2
           (if BB.truthyS r.payee then r.payee else p.payee)
           (if BB.truthyS r.comment then r.comment else none))) ∧
    (∀ (rules : List Journal.CRule) (dflt : Journal.AccountTree)
       (p : Journal.JPosting),
       rules.find? (fun r => Journal.ruleMatches r p) = none →
       Journal.classifyOne rules dflt p =
         some (false, Journal.mkTwoPostingTxn p dflt p.payee none)) ∧
    (∀ (p : Journal.JPosting) (acc2 : Journal.AccountTree) (py cm : Option String),
       (Journal.mkTwoPostingTxn p acc2 py cm).postings.map (fun q => q.amount) =
         [p.amount, -p.amount] ∧
       (Journal.mkTwoPostingTxn p acc2 py cm).postings.map (fun q => q.account) =
         [p.account, acc2] ∧
       ((Journal.mkTwoPostingTxn p acc2 py cm).postings.map (fun q => q.amount)).sum = 0) ∧
    Journal.classify [EX.p150] [EX.rule100200] EX.unknownExp =
      [(true, Journal.mkTwoPostingTxn EX.p150 EX.groceries none none)] ∧
    Journal.classify [EX.p500] [EX.rule100200] EX.unknownExp =
      [(false, Journal.mkTwoPostingTxn EX.p500 EX.unknownExp none none)] := by
  refine ⟨?_, ?_, ?_, ?_, ?_, rfl, rfl⟩
  · intro r p
    simp [Journal.ruleMatches, Bool.and_eq_true, Journal.dateFromOk_iff,
      Journal.dateToOk_iff, Journal.amntFromOk_iff, Journal.amntToOk_iff,
      Journal.reAccOk_iff, Journal.reOptOk_iff, and_assoc]
  · intro rules dflt p r hfind hsnd
    simp [Journal.classifyOne, hfind, hsnd]
  · intro rules dflt p r acc2 hfind hsnd
    simp [Journal.classifyOne, hfind, hsnd]
  · intro rules dflt p hfind
    simp [Journal.classifyOne, hfind]
  · intro p acc2 py cm
    refine ⟨rfl, rfl, by simp [Journal.mkTwoPostingTxn]⟩

/-- Witness for C5 at the concrete 150 posting and the amount-range rule
with a target. -/
theorem c5_witness :
    Journal.classifyOne [EX.rule100200] EX.unknownExp EX.p150 =
      some (true, Journal.mkTwoPostingTxn EX.p150 EX.groceries
        (if BB.truthyS EX.rule100200.payee then EX.rule100200.payee else EX.p150.payee)
        (if BB.truthyS EX.rule100200.comment then EX.rule100200.comment else none)) :=
  c5_classification_amended.2.2.1 [EX.rule100200] EX.unknownExp EX.p150 EX.rule100200
    EX.groceries rfl rfl

namespace TxnV1

/-- Sum of an index selection extended by one index. -/
theorem sumIdx_append_one {α : Type} (amount : α → Int) (ps : List α)
    (xs : List Nat) (i : Nat) :
    sumIdx amount ps (xs ++ [i]) =
      sumIdx amount ps xs + ((ps[i]?).map amount).getD 0 := by
  simp [sumIdx]

/-- When the extension loop falls through, it has extended every previous
subset by the current index, and none of the extensions hits the target. -/
theorem tryExtend_ok {α : Type} (amount : α → Int) (ps : List α) (t : Int) (i : Nat) :
    ∀ (prev ws : List (List Nat)),
      tryExtend amount ps t i prev = .ok ws →
      ws = prev.map (fun xs => xs ++ [i]) ∧
      ∀ xs ∈ prev, sumIdx amount ps (xs ++ [i]) ≠ t := by
  intro prev
  induction prev with
  | nil =>
    intro ws h
    unfold tryExtend at h
    cases h
    simp
  | cons xs rest ih =>
    intro ws h
    simp only [tryExtend] at h
    split at h
    · cases h
    · rename_i hmiss
      split at h
      · cases h
      · rename_i exts hrec
        cases h
        obtain ⟨hws, hsums⟩ := ih exts hrec
        subst hws
        refine ⟨rfl, ?_⟩
        intro ys hys
        rcases List.mem_cons.mp hys with rfl | hys
        · intro heq
          exact hmiss (by simp [heq])
        · exact hsums ys hys

/-- When the extension loop returns early, the result extends some
previous subset by the current index and hits the target. -/
theorem tryExtend_err {α : Type} (amount : α → Int) (ps : List α) (t : Int) (i : Nat) :
    ∀ (prev : List (List Nat)) (w : List Nat),
      tryExtend amount ps t i prev = .error w →
      ∃ xs ∈ prev, w = xs ++ [i] ∧ sumIdx amount ps w = t := by
  intro prev
  induction prev with
  | nil =>
    intro w h
    unfold tryExtend at h
    cases h
  | cons xs rest ih =>
    intro w h
    simp only [tryExtend] at h
    split at h
    · rename_i hhit
      cases h
      exact ⟨xs, List.mem_cons_self xs rest, rfl, by simpa using hhit⟩
    · split at h
      · cases h
        obtain ⟨ys, hys, hw, hsum⟩ := ih _ (by assumption)
        exact ⟨ys, List.mem_cons_of_mem xs hys, hw, hsum⟩
      · cases h

/-- In a strictly increasing index list bounded by n + 1 that contains n,
the index n is the last element. -/
theorem pairwise_mem_last : ∀ (S : List Nat) (n : Nat),
    S.Pairwise (· < ·) → (∀ j ∈ S, j < n + 1) → n ∈ S →
    ∃ S₀, S = S₀ ++ [n] ∧ S₀.Pairwise (· < ·) ∧ ∀ j ∈ S₀, j < n := by
  intro S
  induction S with
  | nil => intro n _ _ hn; cases hn
  | cons a S' ih =>
    intro n hp hb hn
    rcases List.mem_cons.mp hn with rfl | hmem
    · have hS' : S' = [] := by
        cases hS' : S' with
        | nil => rfl
        | cons b S'' =>
          have hab : n < b := (List.pairwise_cons.mp hp).1 b
            (by rw [hS']; exact List.mem_cons_self b S'')
          have hlt : b < n + 1 := hb b
            (by rw [hS']; exact List.mem_cons_of_mem n (List.mem_cons_self b S''))
          omega
      subst hS'
      exact ⟨[], rfl, List.Pairwise.nil, by intro j hj; cases hj⟩
    · obtain ⟨S₀, hS, hp₀, hb₀⟩ := ih n (List.pairwise_cons.mp hp).2
        (fun j hj => hb j (List.mem_cons_of_mem a hj)) hmem
      have han : a < n := (List.pairwise_cons.mp hp).1 n hmem
      refine ⟨a :: S₀, by rw [hS]; rfl, ?_, ?_⟩
      · refine List.pairwise_cons.mpr ⟨?_, hp₀⟩
        intro b hbmem
        have : b ∈ S' := by rw [hS]; exact List.mem_append_left [n] hbmem
        exact (List.pairwise_cons.mp hp).1 b this
      · intro j hj
        rcases List.mem_cons.mp hj with rfl | hj
        · exact han
        · exact hb₀ j hj

end TxnV1

namespace TxnV1

/-- Main induction over the outer loop of subset_sum: starting from a
collection prev holding exactly the nonempty strictly-increasing index
subsets of the first i0 indices (none of which hits the target), the loop
over the remaining k indices either returns a valid selection summing to
the target, or guarantees that no nonempty subset of the first i0 + k
indices sums to the target. -/
theorem subsetSumGo_spec {α : Type} (amount : α → Int) (ps : List α) (t : Int) :
    ∀ (k i0 : Nat) (prev : List (List Nat)),
      (∀ xs ∈ prev, xs ≠ [] ∧ xs.Pairwise (· < ·) ∧ (∀ j ∈ xs, j < i0) ∧
        sumIdx amount ps xs ≠ t) →
      (∀ S : List Nat, S ≠ [] → S.Pairwise (· < ·) → (∀ j ∈ S, j < i0) → S ∈ prev) →
      (match subsetSumGo amount ps t (List.range' i0 k) prev with
       | some w => w ≠ [] ∧ w.Pairwise (· < ·) ∧ (∀ j ∈ w, j < i0 + k) ∧
           sumIdx amount ps w = t
       | none => ∀ S : List Nat, S ≠ [] → S.Pairwise (· < ·) →
           (∀ j ∈ S, j < i0 + k) → sumIdx amount ps S ≠ t) := by
  intro k
  induction k with
  | zero =>
    intro i0 prev ha hb
    simp only [List.range'_zero, subsetSumGo]
    intro S h1 h2 h3
    exact (ha S (hb S h1 h2 (fun j hj => by have := h3 j hj; omega))).2.2.2
  | succ k ihk =>
    intro i0 prev ha hb
    rw [List.range'_succ]
    simp only [subsetSumGo]
    by_cases hhit : ((((ps[i0]?).map amount).getD 0 == t) = true)
    · rw [if_pos hhit]
      refine ⟨by simp, by simp, ?_, ?_⟩
      · intro j hj
        simp at hj
        omega
      · simpa [sumIdx] using beq_iff_eq.mp hhit
    · rw [if_neg hhit]
      cases hext : tryExtend amount ps t i0 prev with
      | error w =>
        obtain ⟨xs, hxs, hw, hsum⟩ := tryExtend_err amount ps t i0 prev w hext
        obtain ⟨hne, hpw, hbd, _⟩ := ha xs hxs
        subst hw
        refine ⟨by simp, ?_, ?_, hsum⟩
        · refine List.pairwise_append.mpr ⟨hpw, List.pairwise_singleton _ _, ?_⟩
          intro a ha2 b hb2
          rcases List.mem_singleton.mp hb2 with rfl
          exact hbd a ha2
        · intro j hj
          rcases List.mem_append.mp hj with hj | hj
          · have := hbd j hj; omega
          · rcases List.mem_singleton.mp hj with rfl; omega
      | ok exts =>
        obtain ⟨hexts, hsums⟩ := tryExtend_ok amount ps t i0 prev exts hext
        subst hexts
        show (match subsetSumGo amount ps t (List.range' (i0 + 1) k)
            (prev ++ [i0] :: prev.map (fun xs => xs ++ [i0])) with
          | some w => w ≠ [] ∧ w.Pairwise (· < ·) ∧ (∀ j ∈ w, j < i0 + (k + 1)) ∧
              sumIdx amount ps w = t
          | none => ∀ S : List Nat, S ≠ [] → S.Pairwise (· < ·) →
              (∀ j ∈ S, j < i0 + (k + 1)) → sumIdx amount ps S ≠ t)
        have hsing : sumIdx amount ps [i0] ≠ t := by
          intro hc
          apply hhit
          simp [sumIdx] at hc
          simp [hc]
        have ha2 : ∀ xs ∈ prev ++ [i0] :: prev.map (fun xs => xs ++ [i0]),
            xs ≠ [] ∧ xs.Pairwise (· < ·) ∧ (∀ j ∈ xs, j < i0 + 1) ∧
            sumIdx amount ps xs ≠ t := by
          intro xs hxs
          rcases List.mem_append.mp hxs with hxs | hxs
          · obtain ⟨h1, h2, h3, h4⟩ := ha xs hxs
            exact ⟨h1, h2, fun j hj => by have := h3 j hj; omega, h4⟩
          · rcases List.mem_cons.mp hxs with rfl | hxs
            · refine ⟨by simp, by simp, ?_, hsing⟩
              intro j hj
              simp at hj
              omega
            · obtain ⟨ys, hys, rfl⟩ := List.mem_map.mp hxs
              obtain ⟨h1, h2, h3, _⟩ := ha ys hys
              refine ⟨by simp, ?_, ?_, hsums ys hys⟩
              · refine List.pairwise_append.mpr ⟨h2, List.pairwise_singleton _ _, ?_⟩
                intro a ha3 b hb3
                rcases List.mem_singleton.mp hb3 with rfl
                exact h3 a ha3
              · intro j hj
                rcases List.mem_append.mp hj with hj | hj
                · have := h3 j hj; omega
                · rcases List.mem_singleton.mp hj with rfl; omega
        have hb2 : ∀ S : List Nat, S ≠ [] → S.Pairwise (· < ·) →
            (∀ j ∈ S, j < i0 + 1) →
            S ∈ prev ++ [i0] :: prev.map (fun xs => xs ++ [i0]) := by
          intro S h1 h2 h3
          by_cases hi : i0 ∈ S
          · obtain ⟨S₀, rfl, hp₀, hb₀⟩ := pairwise_mem_last S i0 h2 h3 hi
            by_cases hS0 : S₀ = []
            · subst hS0
              exact List.mem_append_right prev (List.mem_cons_self _ _)
            · have hmem : S₀ ∈ prev := hb S₀ hS0 hp₀ hb₀
              exact List.mem_append_right prev
                (List.mem_cons_of_mem _ (List.mem_map.mpr ⟨S₀, hmem, rfl⟩))
          · have hlt : ∀ j ∈ S, j < i0 := by
              intro j hj
              have := h3 j hj
              rcases Nat.lt_succ_iff_lt_or_eq.mp this with h | rfl
              · exact h
              · exact absurd hj hi
            exact List.mem_append_left _ (hb S h1 h2 hlt)
        have hres := ihk (i0 + 1) (prev ++ [i0] :: prev.map (fun xs => xs ++ [i0])) ha2 hb2
        cases hgo : subsetSumGo amount ps t (List.range' (i0 + 1) k)
            (prev ++ [i0] :: prev.map (fun xs => xs ++ [i0])) with
        | some w =>
          rw [hgo] at hres
          exact ⟨hres.1, hres.2.1, fun j hj => by have := hres.2.2.1 j hj; omega,
            hres.2.2.2⟩
        | none =>
          rw [hgo] at hres
          intro S h1 h2 h3
          exact hres S h1 h2 (fun j hj => by have := h3 j hj; omega)


end TxnV1

namespace TxnV1

/-- The selection by an in-bounds index list, as a pmap of Fin-indexed
gets. -/
theorem selIdx_eq_pmap {α : Type} (ps : List α) :
    ∀ (w : List Nat) (hb : ∀ j ∈ w, j < ps.length),
      w.filterMap (fun k => ps[k]?) =
        (w.pmap (fun j hj => (⟨j, hj⟩ : Fin ps.length)) hb).map ps.get := by
  intro w
  induction w with
  | nil => intro hb; rfl
  | cons j w2 ih =>
    intro hb
    have hj : j < ps.length := hb j (List.mem_cons_self j w2)
    simp only [List.filterMap_cons, List.getElem?_eq_getElem hj, List.pmap,
      List.map_cons, List.get_eq_getElem]
    rw [ih (fun a ha => hb a (List.mem_cons_of_mem j ha))]

/-- The selection by a strictly increasing in-bounds index list is a
sublist of the postings. -/
theorem selIdx_sublist {α : Type} (ps : List α) (w : List Nat)
    (hp : w.Pairwise (· < ·)) (hb : ∀ j ∈ w, j < ps.length) :
    (w.filterMap (fun k => ps[k]?)).Sublist ps := by
  rw [selIdx_eq_pmap ps w hb]
  apply List.map_get_sublist
  exact List.Pairwise.pmap hp hb (fun a ha b hb2 hlt => hlt)

/-- The amounts of an in-bounds index selection sum to the index sum. -/
theorem selIdx_sum {α : Type} (amount : α → Int) (ps : List α) :
    ∀ (w : List Nat), (∀ j ∈ w, j < ps.length) →
      ((w.filterMap (fun k => ps[k]?)).map amount).sum = sumIdx amount ps w := by
  intro w
  induction w with
  | nil => intro hb; rfl
  | cons j w2 ih =>
    intro hb
    have hj : j < ps.length := hb j (List.mem_cons_self j w2)
    have ih2 := ih (fun a ha => hb a (List.mem_cons_of_mem j ha))
    calc ((List.filterMap (fun k => ps[k]?) (j :: w2)).map amount).sum
        = amount ps[j] + ((List.filterMap (fun k => ps[k]?) w2).map amount).sum := by
          simp [List.filterMap_cons, List.getElem?_eq_getElem hj]
      _ = amount ps[j] + sumIdx amount ps w2 := by rw [ih2]
      _ = sumIdx amount ps (j :: w2) := by
          simp [sumIdx, List.getElem?_eq_getElem hj]

/-- An in-bounds nonempty index selection is nonempty. -/
theorem selIdx_ne_nil {α : Type} (ps : List α) (w : List Nat) (hne : w ≠ [])
    (hb : ∀ j ∈ w, j < ps.length) :
    w.filterMap (fun k => ps[k]?) ≠ [] := by
  cases w with
  | nil => exact absurd rfl hne
  | cons j w2 =>
    have hj : j < ps.length := hb j (List.mem_cons_self j w2)
    simp [List.filterMap_cons, List.getElem?_eq_getElem hj]

/-- The index sum over the values of a Fin-index list is the sum of the
corresponding amounts. -/
theorem sumIdx_map_val {α : Type} (amount : α → Int) (ps : List α) :
    ∀ is : List (Fin ps.length),
      sumIdx amount ps (is.map Fin.val) = ((is.map ps.get).map amount).sum := by
  intro is
  induction is with
  | nil => rfl
  | cons i is2 ih =>
    calc sumIdx amount ps ((i :: is2).map Fin.val)
        = amount (ps.get i) + sumIdx amount ps (is2.map Fin.val) := by
          simp [sumIdx, List.getElem?_eq_getElem i.isLt]
      _ = amount (ps.get i) + ((is2.map ps.get).map amount).sum := by rw [ih]
      _ = (((i :: is2).map ps.get).map amount).sum := by simp

/-- Soundness of subset_sum: a returned selection is a sub-collection of
the postings whose amounts sum exactly to the target. -/
theorem subsetSum_sound {α : Type} (amount : α → Int) (ps : List α) (t : Int)
    (l : List α) (h : subsetSum amount ps t = some l) :
    l.Sublist ps ∧ (l.map amount).sum = t := by
  unfold subsetSum at h
  split at h
  · rename_i ht
    cases h
    exact ⟨List.nil_sublist ps, by simpa using (beq_iff_eq.mp ht).symm⟩
  · cases hgo : subsetSumGo amount ps t (List.range ps.length) [] with
    | none => rw [hgo] at h; cases h
    | some w =>
      rw [hgo] at h
      simp only [Option.map_some'] at h
      cases h
      have hgo2 : subsetSumGo amount ps t (List.range' 0 ps.length) [] = some w := by
        rw [← List.range_eq_range']
        exact hgo
      have hspec := subsetSumGo_spec amount ps t ps.length 0 []
        (by intro xs hxs; cases hxs)
        (by
          intro S h1 h2 h3
          cases S with
          | nil => exact absurd rfl h1
          | cons a S2 => exact absurd (h3 a (List.mem_cons_self a S2)) (by omega))
      rw [hgo2] at hspec
      obtain ⟨hne, hp, hbd, hsum⟩ := hspec
      have hb : ∀ j ∈ w, j < ps.length := fun j hj => by have := hbd j hj; omega
      exact ⟨selIdx_sublist ps w hp hb, by rw [selIdx_sum amount ps w hb]; exact hsum⟩

/-- Completeness of subset_sum: when a nonempty sub-collection of the
postings sums to the (nonzero) target, a selection is returned. -/
theorem subsetSum_exists {α : Type} (amount : α → Int) (ps : List α) (t : Int)
    (ht : t ≠ 0) (sub : List α) (hne : sub ≠ []) (hsub : sub.Sublist ps)
    (hsum : (sub.map amount).sum = t) :
    ∃ l, subsetSum amount ps t = some l := by
  cases hres : subsetSum amount ps t with
  | some l => exact ⟨l, rfl⟩
  | none =>
    exfalso
    unfold subsetSum at hres
    rw [if_neg (by simpa using ht)] at hres
    cases hgo : subsetSumGo amount ps t (List.range ps.length) [] with
    | some w => rw [hgo] at hres; cases hres
    | none =>
      have hgo2 : subsetSumGo amount ps t (List.range' 0 ps.length) [] = none := by
        rw [← List.range_eq_range']
        exact hgo
      have hspec := subsetSumGo_spec amount ps t ps.length 0 []
        (by intro xs hxs; cases hxs)
        (by
          intro S h1 h2 h3
          cases S with
          | nil => exact absurd rfl h1
          | cons a S2 => exact absurd (h3 a (List.mem_cons_self a S2)) (by omega))
      rw [hgo2] at hspec
      obtain ⟨is, hsubeq, hpis⟩ := List.sublist_eq_map_get hsub
      have hnis : is ≠ [] := by
        intro hc
        apply hne
        rw [hsubeq, hc]
        rfl
      apply hspec (is.map Fin.val)
      · simpa using hnis
      · exact List.pairwise_map.mpr hpis
      · intro j hj
        obtain ⟨i, _, rfl⟩ := List.mem_map.mp hj
        have := i.isLt
        omega
      · rw [sumIdx_map_val amount ps is, ← hsubeq]
        exact hsum

end TxnV1

/-- Claim C3: for every list of postings and nonzero target, subset_sum
returns a nonempty sub-collection of the postings summing exactly to the
target whenever some nonempty sub-collection does (the incremental search
is exhaustive over subsets), and returns no result when no such
sub-collection exists.  The statement is generic in the posting type and
its amount accessor, which is all the function reads. -/
theorem c3_subset_sum_exhaustive :
    ∀ {α : Type} (amount : α → Int) (ps : List α) (t : Int), t ≠ 0 →
      ((∃ sub : List α, sub ≠ [] ∧ sub.Sublist ps ∧ (sub.map amount).sum = t) →
        ∃ l, TxnV1.subsetSum amount ps t = some l ∧ l ≠ [] ∧ l.Sublist ps ∧
          (l.map amount).sum = t) ∧
      ((∀ sub : List α, sub.Sublist ps → sub ≠ [] → (sub.map amount).sum ≠ t) →
        TxnV1.subsetSum amount ps t = none) := by
  intro α amount ps t ht
  constructor
  · rintro ⟨sub, hne, hsub, hsum⟩
    obtain ⟨l, hl⟩ := TxnV1.subsetSum_exists amount ps t ht sub hne hsub hsum
    obtain ⟨hsl, hs⟩ := TxnV1.subsetSum_sound amount ps t l hl
    refine ⟨l, hl, ?_, hsl, hs⟩
    intro hc
    subst hc
    simp at hs
    exact ht hs.symm
  · intro hno
    cases hres : TxnV1.subsetSum amount ps t with
    | none => rfl
    | some l =>
      exfalso
      obtain ⟨hsl, hs⟩ := TxnV1.subsetSum_sound amount ps t l hres
      have hlne : l ≠ [] := by
        intro hc
        subst hc
        simp at hs
        exact ht hs.symm
      exact hno l hsl hlne hs

/-- Witness for C3 at the amounts [1, 3] and target 3: the subset [3]
exists and subset_sum returns a selection summing to 3. -/
theorem c3_witness :
    ∃ l, TxnV1.subsetSum (fun a : Int => a) [1, 3] 3 = some l ∧ l ≠ [] ∧
      l.Sublist [1, 3] ∧ (l.map (fun a : Int => a)).sum = 3 :=
  (c3_subset_sum_exhaustive (fun a : Int => a) [1, 3] 3 (by decide)).1
    ⟨[3], by decide, (List.Sublist.refl [3]).cons 1, by decide⟩

namespace BB

/-- One-step reduction of groupByKey on a cons cell, given the grouping
of the tail. -/
theorem groupByKey_cons_eq {α : Type} (key : α → Int) (a : α) (as : List α)
    (k0 : Int) (g0 : List α) (rest : List (Int × List α))
    (hm : groupByKey key as = (k0, g0) :: rest) :
    groupByKey key (a :: as) =
      if (key a == k0) = true then (key a, a :: g0) :: rest
      else (key a, [a]) :: (k0, g0) :: rest := by
  unfold groupByKey
  rw [hm]

/-- One-step reduction of groupByKey on a cons cell with empty tail
grouping. -/
theorem groupByKey_cons_nil {α : Type} (key : α → Int) (a : α) (as : List α)
    (hm : groupByKey key as = []) :
    groupByKey key (a :: as) = [(key a, [a])] := by
  unfold groupByKey
  rw [hm]

/-- Each group produced by groupByKey is nonempty and all its members
have the group key. -/
theorem groupByKey_mem {α : Type} (key : α → Int) :
    ∀ (l : List α) (g : Int × List α), g ∈ groupByKey key l →
      g.2 ≠ [] ∧ ∀ a ∈ g.2, key a = g.1 := by
  intro l
  induction l with
  | nil => intro g hg; cases hg
  | cons a as ih =>
    intro g hg
    cases hm : groupByKey key as with
    | nil =>
      rw [groupByKey_cons_nil key a as hm] at hg
      rcases List.mem_singleton.mp hg with rfl
      refine ⟨by simp, ?_⟩
      intro b hb
      rcases List.mem_singleton.mp hb with rfl
      rfl
    | cons kg rest =>
      obtain ⟨k0, g0⟩ := kg
      rw [groupByKey_cons_eq key a as k0 g0 rest hm] at hg
      have hg0 := ih (k0, g0) (by rw [hm]; exact List.mem_cons_self _ _)
      split at hg
      · rename_i heq
        rcases List.mem_cons.mp hg with rfl | hg
        · refine ⟨by simp, ?_⟩
          intro b hb
          rcases List.mem_cons.mp hb with rfl | hb
          · rfl
          · rw [hg0.2 b hb]
            exact (beq_iff_eq.mp heq).symm
        · exact ih g (by rw [hm]; exact List.mem_cons_of_mem _ hg)
      · rcases List.mem_cons.mp hg with rfl | hg
        · refine ⟨by simp, ?_⟩
          intro b hb
          rcases List.mem_singleton.mp hb with rfl
          rfl
        · exact ih g (by rw [hm]; exact hg)

/-- Each group produced by groupByKey is a sublist of the input. -/
theorem groupByKey_sublist {α : Type} (key : α → Int) :
    ∀ (l : List α) (g : Int × List α), g ∈ groupByKey key l → g.2.Sublist l := by
  intro l
  induction l with
  | nil => intro g hg; cases hg
  | cons a as ih =>
    intro g hg
    cases hm : groupByKey key as with
    | nil =>
      rw [groupByKey_cons_nil key a as hm] at hg
      rcases List.mem_singleton.mp hg with rfl
      exact (List.nil_sublist as).cons₂ a
    | cons kg rest =>
      obtain ⟨k0, g0⟩ := kg
      rw [groupByKey_cons_eq key a as k0 g0 rest hm] at hg
      split at hg
      · rcases List.mem_cons.mp hg with rfl | hg
        · exact (ih (k0, g0) (by rw [hm]; exact List.mem_cons_self _ _)).cons₂ a
        · exact (ih g (by rw [hm]; exact List.mem_cons_of_mem _ hg)).cons a
      · rcases List.mem_cons.mp hg with rfl | hg
        · exact (List.nil_sublist as).cons₂ a
        · exact (ih g (by rw [hm]; exact hg)).cons a

/-- On an input whose keys are nondecreasing, the group keys of
groupByKey are strictly increasing. -/
theorem groupByKey_keys_lt {α : Type} (key : α → Int) :
    ∀ l : List α, l.Pairwise (fun a b => key a ≤ key b) →
      ((groupByKey key l).map Prod.fst).Pairwise (· < ·) := by
  intro l
  induction l with
  | nil => intro h; simp [groupByKey]
  | cons a as ih =>
    intro h
    obtain ⟨ha, htail⟩ := List.pairwise_cons.mp h
    cases hm : groupByKey key as with
    | nil =>
      rw [groupByKey_cons_nil key a as hm]
      simp
    | cons kg rest =>
      obtain ⟨k0, g0⟩ := kg
      have hkeys := ih htail
      rw [hm] at hkeys
      simp only [List.map_cons] at hkeys
      have hk0 : key a ≤ k0 := by
        obtain ⟨hne, hall⟩ := groupByKey_mem key as (k0, g0)
          (by rw [hm]; exact List.mem_cons_self _ _)
        obtain ⟨b, hb⟩ := List.exists_mem_of_ne_nil g0 hne
        have hbas : b ∈ as :=
          (groupByKey_sublist key as (k0, g0)
            (by rw [hm]; exact List.mem_cons_self _ _)).subset hb
        calc key a ≤ key b := ha b hbas
          _ = k0 := hall b hb
      rw [groupByKey_cons_eq key a as k0 g0 rest hm]
      split
      · rename_i heq
        simp only [List.map_cons]
        rw [show key a = k0 from beq_iff_eq.mp heq]
        exact hkeys
      · rename_i hne2
        have hlt : key a < k0 := lt_of_le_of_ne hk0 (by simpa using hne2)
        simp only [List.map_cons]
        refine List.pairwise_cons.mpr ⟨?_, hkeys⟩
        intro b hb
        rcases List.mem_cons.mp hb with rfl | hb
        · exact hlt
        · have hk0b : k0 < b := (List.pairwise_cons.mp hkeys).1 b hb
          omega

/-- Accumulating running totals does not change the date keys. -/
theorem cumulGroups_map_fst : ∀ (tot : Int) (gs : List (Int × Int)),
    (cumulGroups tot gs).map Prod.fst = gs.map Prod.fst := by
  intro tot gs
  induction gs generalizing tot with
  | nil => rfl
  | cons g rest ih =>
    obtain ⟨d, s⟩ := g
    simp [cumulGroups, ih]

end BB

namespace BB

/-- On a timeline with strictly increasing dates, indexing is monotone. -/
theorem keys_mono (tl : List (Int × Int))
    (hs : (tl.map Prod.fst).Pairwise (· < ·)) :
    ∀ i j : Nat, i ≤ j → j < tl.length →
      (tl.getD i (0, 0)).1 ≤ (tl.getD j (0, 0)).1 := by
  intro i j hij hj
  have hi : i < tl.length := lt_of_le_of_lt hij hj
  rcases Nat.lt_or_ge i j with hlt | hge
  · have hp := List.pairwise_iff_get.mp hs
    have := hp ⟨i, by simpa using hi⟩ ⟨j, by simpa using hj⟩ (by simpa using hlt)
    simp only [List.get_eq_getElem, List.getElem_map] at this
    rw [List.getD_eq_getElem _ _ hi, List.getD_eq_getElem _ _ hj]
    omega
  · have : i = j := le_antisymm hij hge
    subst this
    exact le_refl _

/-- The invariant of the bisect_right binary search loop: with enough
fuel, it returns the split point between the entries at-or-before the
date and those after, given monotone keys and the entry invariants. -/
theorem bisectGo_spec (tl : List (Int × Int)) (dt : Int)
    (hmono : ∀ i j : Nat, i ≤ j → j < tl.length →
      (tl.getD i (0, 0)).1 ≤ (tl.getD j (0, 0)).1) :
    ∀ (fuel lo hi : Nat), lo ≤ hi → hi ≤ tl.length → hi - lo ≤ fuel →
      (∀ i, i < lo → (tl.getD i (0, 0)).1 ≤ dt) →
      (∀ i, hi ≤ i → i < tl.length → dt < (tl.getD i (0, 0)).1) →
      lo ≤ bisectGo tl dt fuel lo hi ∧ bisectGo tl dt fuel lo hi ≤ hi ∧
      (∀ i, i < bisectGo tl dt fuel lo hi → (tl.getD i (0, 0)).1 ≤ dt) ∧
      (∀ i, bisectGo tl dt fuel lo hi ≤ i → i < tl.length →
        dt < (tl.getD i (0, 0)).1) := by
  intro fuel
  induction fuel with
  | zero =>
    intro lo hi hlohi hhi hfuel hbelow habove
    have : lo = hi := by omega
    subst this
    exact ⟨le_refl _, le_refl _, hbelow, habove⟩
  | succ f ih =>
    intro lo hi hlohi hhi hfuel hbelow habove
    by_cases hlt : lo < hi
    · have hred : bisectGo tl dt (f + 1) lo hi =
          (if dt < (tl.getD ((lo + hi) / 2) (0, 0)).1
           then bisectGo tl dt f lo ((lo + hi) / 2)
           else bisectGo tl dt f ((lo + hi) / 2 + 1) hi) := by
        conv_lhs => unfold bisectGo
        rw [if_pos hlt]
      have hmidlt : (lo + hi) / 2 < hi := by omega
      have hmidge : lo ≤ (lo + hi) / 2 := by omega
      by_cases hc : dt < (tl.getD ((lo + hi) / 2) (0, 0)).1
      · rw [hred, if_pos hc]
        have habove2 : ∀ i, (lo + hi) / 2 ≤ i → i < tl.length →
            dt < (tl.getD i (0, 0)).1 := by
          intro i hi2 hilen
          exact lt_of_lt_of_le hc (hmono _ i hi2 hilen)
        obtain ⟨h1, h2, h3, h4⟩ := ih lo ((lo + hi) / 2) hmidge
          (le_trans (le_of_lt hmidlt) hhi) (by omega) hbelow habove2
        exact ⟨h1, le_trans h2 (le_of_lt hmidlt), h3, h4⟩
      · rw [hred, if_neg hc]
        have hmid : (tl.getD ((lo + hi) / 2) (0, 0)).1 ≤ dt := le_of_not_lt hc
        have hbelow2 : ∀ i, i < (lo + hi) / 2 + 1 → (tl.getD i (0, 0)).1 ≤ dt := by
          intro i hi2
          exact le_trans (hmono i ((lo + hi) / 2) (by omega)
            (lt_of_lt_of_le hmidlt hhi)) hmid
        obtain ⟨h1, h2, h3, h4⟩ := ih ((lo + hi) / 2 + 1) hi (by omega) hhi
          (by omega) hbelow2 habove
        exact ⟨le_trans (by omega) h1, h2, h3, h4⟩
    · have : lo = hi := by omega
      subst this
      have hred : bisectGo tl dt (f + 1) lo lo = lo := by
        conv_lhs => unfold bisectGo
        rw [if_neg hlt]
      rw [hred]
      exact ⟨le_refl _, le_refl _, hbelow, habove⟩

/-- A list splits as a take when a prefix satisfies the predicate and the
remainder falsifies it (indexwise form). -/
theorem filter_eq_take (dt : Int) :
    ∀ (tl : List (Int × Int)) (r : Nat), r ≤ tl.length →
      (∀ i, i < r → (tl.getD i (0, 0)).1 ≤ dt) →
      (∀ i, r ≤ i → i < tl.length → dt < (tl.getD i (0, 0)).1) →
      tl.filter (fun e => decide (e.1 ≤ dt)) = tl.take r := by
  intro tl
  induction tl with
  | nil => intro r _ _ _; simp
  | cons e es ih =>
    intro r hr hbelow habove
    cases r with
    | zero =>
      rw [List.take_zero]
      apply List.filter_eq_nil_iff.mpr
      intro x hx
      obtain ⟨i, hilen, rfl⟩ := List.mem_iff_getElem.mp hx
      have hgt := habove i (by omega) hilen
      rw [List.getD_eq_getElem _ _ hilen] at hgt
      simp only [decide_eq_true_eq]
      omega
    | succ r2 =>
      have h0 : (e.1 ≤ dt) := by
        have := hbelow 0 (by omega)
        simpa using this
      have hlen : (e :: es).length = es.length + 1 := by simp
      have hrec := ih r2 (by rw [hlen] at hr; omega)
        (by
          intro i hi2
          have h1 := hbelow (i + 1) (by omega)
          rw [List.getD_eq_getElem _ _ (by rw [hlen]; omega)] at h1
          simp only [List.getElem_cons_succ] at h1
          rw [List.getD_eq_getElem _ _ (by rw [hlen] at hr; omega)]
          exact h1)
        (by
          intro i hi2 hilen
          have h1 := habove (i + 1) (by omega) (by rw [hlen]; omega)
          rw [List.getD_eq_getElem _ _ (by rw [hlen]; omega)] at h1
          simp only [List.getElem_cons_succ] at h1
          rw [List.getD_eq_getElem _ _ hilen]
          exact h1)
      simp only [List.take_succ_cons, List.filter_cons,
        decide_eq_true_eq]
      rw [if_pos h0, hrec]

/-- The last value of the mapped take, with default 0. -/
theorem take_getLast_eq (tl : List (Int × Int)) (r : Nat) (hr : r ≤ tl.length) :
    (((tl.take r).map (fun e => e.2)).getLast?).getD 0 =
      (if r = 0 then 0 else (tl.getD (r - 1) (0, 0)).2) := by
  cases hr0 : r with
  | zero => simp
  | succ r2 =>
    have hlt : r2 < tl.length := by omega
    have hlen : ((tl.take (r2 + 1)).map (fun e => e.2)).length = r2 + 1 := by
      rw [List.length_map, List.length_take]
      omega
    rw [List.getLast?_eq_getElem?]
    rw [hlen]
    simp only [Nat.add_sub_cancel]
    rw [List.getElem?_map]
    rw [List.getElem?_take_of_lt (by omega)]
    rw [List.getElem?_eq_getElem hlt]
    simp only [Option.map_some', Option.getD_some]
    rw [if_neg (by omega)]
    rw [List.getD_eq_getElem _ _ (by omega)]

/-- On a date-sorted timeline, the bisect_right lookup of the code equals
the specification's last cumulative value at-or-before the date. -/
theorem bisect_lookup_eq (tl : List (Int × Int)) (dt : Int)
    (hs : (tl.map Prod.fst).Pairwise (· < ·)) :
    (if bisectRight tl dt = 0 then 0 else (tl.getD (bisectRight tl dt - 1) (0, 0)).2) =
      lastAtOrBefore tl dt := by
  have hmono := keys_mono tl hs
  obtain ⟨h1, h2, h3, h4⟩ := bisectGo_spec tl dt hmono tl.length 0 tl.length
    (by omega) (le_refl _) (by omega) (by intro i hi; omega)
    (by intro i hi hlen; omega)
  unfold lastAtOrBefore
  rw [filter_eq_take dt tl (bisectRight tl dt) h2 h3 h4]
  rw [take_getLast_eq tl (bisectRight tl dt) h2]

end BB

namespace Journal

/-- The sorted posting list underlying the per-account grouping is
pairwise nondecreasing in (account number, date). -/
theorem sortCache_pairwise (ps : List JPosting) :
    (BB.sortBy2 (fun p => (p.account.number, p.date)) ps).Pairwise
      (fun x y => BB.lexLE2 (x.account.number, x.date) (y.account.number, y.date) = true) :=
  List.sorted_insertionSort _ ps

/-- Every timeline of the balance cache has strictly increasing dates. -/
theorem timelines_sorted (ps : List JPosting) (useSt : Bool) :
    ∀ e ∈ timelines ps useSt, ((e.2).map Prod.fst).Pairwise (· < ·) := by
  intro e he
  unfold timelines at he
  obtain ⟨⟨n, g⟩, hng, rfl⟩ := List.mem_map.mp he
  simp only
  rw [BB.cumulGroups_map_fst]
  have hgmem := BB.groupByKey_mem (fun p : JPosting => p.account.number)
    (BB.sortBy2 (fun p => (p.account.number, p.date)) ps) (n, g) hng
  have hgsub := BB.groupByKey_sublist (fun p : JPosting => p.account.number)
    (BB.sortBy2 (fun p => (p.account.number, p.date)) ps) (n, g) hng
  cases useSt with
  | false =>
    have hmapfst : (dateGroupSums false g).map Prod.fst =
        (BB.groupByKey (fun p : JPosting => p.date) g).map Prod.fst := by
      simp [dateGroupSums, List.map_map]
    rw [hmapfst]
    apply BB.groupByKey_keys_lt
    have hpl : g.Pairwise
        (fun x y : JPosting =>
          BB.lexLE2 (x.account.number, x.date) (y.account.number, y.date) = true) :=
      (sortCache_pairwise ps).sublist hgsub
    refine hpl.imp_of_mem ?_
    intro a b ha hb hl
    have hka : a.account.number = n := hgmem.2 a ha
    have hkb : b.account.number = n := hgmem.2 b hb
    simp only [BB.lexLE2, Bool.or_eq_true, Bool.and_eq_true, decide_eq_true_eq,
      beq_iff_eq, hka, hkb] at hl
    omega
  | true =>
    have hmapfst : (dateGroupSums true g).map Prod.fst =
        (BB.groupByKey (fun p : JPosting => p.stDate)
          (BB.sortBy1 (fun p : JPosting => p.stDate) g)).map Prod.fst := by
      simp [dateGroupSums, List.map_map]
    rw [hmapfst]
    apply BB.groupByKey_keys_lt
    have hs := List.sorted_insertionSort
      (fun x y : JPosting => (x.stDate ≤ y.stDate : Bool) = true) g
    refine hs.imp_of_mem ?_
    intro a b _ _ hl
    simpa using hl

/-- The fold of account_balance, as the sum of the per-account last
cumulative values at-or-before the date. -/
theorem balanceFold_eq (tls : List (Int × List (Int × Int)))
    (hsort : ∀ e ∈ tls, ((e.2).map Prod.fst).Pairwise (· < ·)) (dt : Int) :
    ∀ (accs : List AccountTree) (init : Int),
      accs.foldl (fun tot a =>
        match lookupTL tls a.number with
        | none => tot
        | some tl =>
          let idx := BB.bisectRight tl dt
          if idx = 0 then tot else tot + (tl.getD (idx - 1) (0, 0)).2) init =
      init + (accs.map (fun a => BB.lastAtOrBefore (timelineOf tls a.number) dt)).sum := by
  intro accs
  induction accs with
  | nil => intro init; simp
  | cons a rest ih =>
    intro init
    simp only [List.foldl_cons, List.map_cons, List.sum_cons]
    have hbody : (match lookupTL tls a.number with
        | none => init
        | some tl =>
          let idx := BB.bisectRight tl dt
          if idx = 0 then init else init + (tl.getD (idx - 1) (0, 0)).2) =
        init + BB.lastAtOrBefore (timelineOf tls a.number) dt := by
      cases hl : lookupTL tls a.number with
      | none => simp [timelineOf, hl, BB.lastAtOrBefore]
      | some tl =>
        have hmem : (a.number, tl) ∈ tls := by
          unfold lookupTL at hl
          cases hf : tls.find? (fun e => e.1 == a.number) with
          | none => rw [hf] at hl; cases hl
          | some entry =>
            rw [hf] at hl
            simp only [Option.map_some'] at hl
            cases hl
            have hpred := List.find?_some hf
            have hm := List.mem_of_find?_eq_some hf
            have : entry.1 = a.number := by simpa using hpred
            rw [← this]
            simpa using hm
        have hsorted := hsort (a.number, tl) hmem
        have htl : timelineOf tls a.number = tl := by
          unfold timelineOf
          rw [hl]
          rfl
        rw [htl, ← BB.bisect_lookup_eq tl dt hsorted]
        by_cases h0 : BB.bisectRight tl dt = 0
        · simp [h0]
        · simp [h0]
    rw [hbody, ih]
    omega

end Journal

/-- Claim C2: the balance query returns, for the account and (when
subaccounts are included) each of its descendants, the sum of the last
cumulative timeline value at-or-before the date — 0 for an account with
no timeline or when the date precedes its first entry — and on the
postings +500 (2023-01-01) and -200 (2023-01-15) it returns 500 at
2023-01-10, 300 at 2023-01-20 and 0 at 2022-12-01. -/
theorem c2_balance_at_or_before :
    (∀ (txns : List Journal.JTxn) (useSt : Bool) (acc : Journal.AccountTree)
       (dt : Int) (includeSub : Bool),
       Journal.accountBalance txns acc dt useSt includeSub =
         (((if includeSub then acc.getAccountAndDescendants else [acc]).map
           (fun a => BB.lastAtOrBefore
             (Journal.timelineOf
               (Journal.timelines (Journal.flatPostings txns) useSt) a.number) dt)).sum)) ∧
    Journal.accountBalance EX.c2Txns EX.chequing 738530 false false = 500 ∧
    Journal.accountBalance EX.c2Txns EX.chequing 738540 false false = 300 ∧
    Journal.accountBalance EX.c2Txns EX.chequing 738490 false false = 0 := by
  refine ⟨?_, rfl, rfl, rfl⟩
  intro txns useSt acc dt includeSub
  unfold Journal.accountBalance Journal.accountBalanceFrom
  rw [Journal.balanceFold_eq
    (Journal.timelines (Journal.flatPostings txns) useSt)
    (Journal.timelines_sorted (Journal.flatPostings txns) useSt) dt
    (if includeSub then acc.getAccountAndDescendants else [acc]) 0]
  omega

/-- Claim C4 counterexample: for the checkpoint asserting 1000 while the
computed statement-basis balance is 700, with exactly one eligible
posting — of amount +300 — in the 7-day look-back window, the alignment
search targets computed minus asserted, which is -300; it therefore
selects nothing (find_ps returns None) and auto_statement_date mutates
nothing, contradicting the claim that it selects that posting and bumps
its statement date. -/
theorem c4_counterexample :
    Journal.accountBalanceFrom
        (Journal.timelines (Journal.flatPostings EX.cex4Txns) true)
        EX.bal4.account EX.bal4.date true = 700 ∧
    EX.bal4.stBalance = 1000 ∧
    (Journal.flatPostings EX.cex4Txns).filter (fun x =>
        Journal.pyEqA x.account EX.chequing &&
        (decide (x.date ≤ EX.bal4.date) && decide (x.stDate ≤ EX.bal4.date) &&
         decide (EX.bal4.date - 7 ≤ x.date))) = [EX.cex4P3] ∧
    EX.cex4P3.amount = 300 ∧
    Journal.findPs (Journal.timelines (Journal.flatPostings EX.cex4Txns) true)
        (Journal.flatPostings EX.cex4Txns) EX.bal4 7 = none ∧
    Journal.autoStatementDate EX.cex4J = ([], Journal.sortData EX.cex4J) :=
  ⟨rfl, rfl, rfl, rfl, rfl, rfl⟩

/-- Claim C4 (amended): every selection returned by statement-date
alignment consists only of postings of the checkpoint's account or its
descendants whose transaction date is not after the checkpoint date, at
most the look-back window before it, and whose statement date is not
after the checkpoint date; the selection's amounts sum exactly to
(computed - asserted); and in the concrete scenario — checkpoint
requiring 1000, computed 700, exactly one eligible posting, of amount
-300, in the window — alignment selects exactly that posting and sets
its statement date to the checkpoint date plus one. -/
theorem c4_statement_alignment_amended :
    (∀ (tls : List (Int × List (Int × Int))) (postings : List Journal.JPosting)
       (b : Journal.JBalance) (limit : Int) (sel : List Journal.JPosting),
       Journal.findPs tls postings b limit = some sel →
       (sel.map (fun p => p.amount)).sum =
         Journal.accountBalanceFrom tls b.account b.date true - b.stBalance ∧
       ∀ p ∈ sel, p ∈ postings ∧
         (∃ a ∈ b.account.getAccountAndDescendants, p.account.number = a.number) ∧
         p.date ≤ b.date ∧ p.stDate ≤ b.date ∧ b.date - limit ≤ p.date) ∧
    Journal.findPs (Journal.timelines (Journal.flatPostings EX.amd4Txns) true)
        (Journal.flatPostings EX.amd4Txns) EX.bal4 7 = some [EX.amd4P3] ∧
    (Journal.autoStatementDate EX.amd4J).1 = [EX.amd4Upd] ∧
    Journal.flatPostings (Journal.autoStatementDate EX.amd4J).2.txns =
      [{ pid := 1, date := 738505, account := EX.chequing, amount := 1000,
         payee := none, stDate := 738505, stDesc := none, comment := none },
       { pid := 2, date := 738505, account := EX.salary, amount := -1000,
         payee := none, stDate := 738505, stDesc := none, comment := none },
       EX.amd4Upd,
       { pid := 4, date := 738533, account := EX.salary, amount := 300,
         payee := none, stDate := 738533, stDesc := none, comment := none }] := by
  refine ⟨?_, rfl, rfl, rfl⟩
  intro tls postings b limit sel h
  simp only [Journal.findPs] at h
  split at h
  · rename_i hsat
    cases h
    have hb2 := beq_iff_eq.mp hsat
    refine ⟨by simp [hb2], ?_⟩
    intro p hp
    cases hp
  · rename_i hsat
    obtain ⟨hsub, hsum⟩ := TxnV1.subsetSum_sound _ _ _ sel h
    refine ⟨hsum, ?_⟩
    intro p hp
    have hp3 : p ∈ BB.sortBy1Desc (fun x => x.date)
        (((b.account.getAccountAndDescendants).flatMap
          (fun a => (((Journal.postingsByAccount postings).find?
            (fun e => e.1 == a.number)).map (fun e => e.2)).getD [])).filter
          (fun x => decide (x.date ≤ b.date) && decide (x.stDate ≤ b.date) &&
            decide (b.date - limit ≤ x.date))) := hsub.subset hp
    have hp2 : p ∈ ((b.account.getAccountAndDescendants).flatMap
        (fun a => (((Journal.postingsByAccount postings).find?
          (fun e => e.1 == a.number)).map (fun e => e.2)).getD [])).filter
        (fun x => decide (x.date ≤ b.date) && decide (x.stDate ≤ b.date) &&
          decide (b.date - limit ≤ x.date)) :=
      (List.perm_insertionSort _ _).subset hp3
    obtain ⟨hp1, hcond⟩ := List.mem_filter.mp hp2
    simp only [Bool.and_eq_true, decide_eq_true_eq] at hcond
    obtain ⟨a, ha, hpa⟩ := List.mem_flatMap.mp hp1
    cases hf : (Journal.postingsByAccount postings).find? (fun e => e.1 == a.number) with
    | none =>
      rw [hf] at hpa
      cases hpa
    | some entry =>
      rw [hf] at hpa
      simp only [Option.map_some', Option.getD_some] at hpa
      have hmem := List.mem_of_find?_eq_some hf
      have hkey : entry.1 = a.number := by simpa using List.find?_some hf
      have hgm := BB.groupByKey_mem (fun p : Journal.JPosting => p.account.number)
        (BB.sortBy2 (fun p => (p.account.number, p.date)) postings) entry hmem
      have hgs := BB.groupByKey_sublist (fun p : Journal.JPosting => p.account.number)
        (BB.sortBy2 (fun p => (p.account.number, p.date)) postings) entry hmem
      refine ⟨?_, ⟨a, ha, ?_⟩, hcond.1.1, hcond.1.2, hcond.2⟩
      · have : p ∈ BB.sortBy2 (fun p => (p.account.number, p.date)) postings :=
          hgs.subset hpa
        exact (List.perm_insertionSort _ _).subset this
      · have hkp : p.account.number = entry.1 := hgm.2 p hpa
        rw [hkp, hkey]

/-- Witness for C4's general clause at the amended concrete journal. -/
theorem c4_witness :
    ([EX.amd4P3].map (fun p => p.amount)).sum =
      Journal.accountBalanceFrom
        (Journal.timelines (Journal.flatPostings EX.amd4Txns) true)
        EX.bal4.account EX.bal4.date true - EX.bal4.stBalance ∧
    EX.amd4P3 ∈ Journal.flatPostings EX.amd4Txns ∧
    EX.amd4P3.date ≤ EX.bal4.date ∧ EX.amd4P3.stDate ≤ EX.bal4.date ∧
    EX.bal4.date - 7 ≤ EX.amd4P3.date := by
  have h := c4_statement_alignment_amended.1
    (Journal.timelines (Journal.flatPostings EX.amd4Txns) true)
    (Journal.flatPostings EX.amd4Txns) EX.bal4 7 [EX.amd4P3] rfl
  have hp := h.2 EX.amd4P3 (List.mem_singleton.mpr rfl)
  exact ⟨h.1, hp.1, hp.2.2.1, hp.2.2.2.1, hp.2.2.2.2⟩
